import Mathlib

/-!
Verification of the `azure-ai-foundry-agents-deep-research` repository.

This file shallowly embeds the parts of the repository that the checked
properties are about:

* `security/validation.py` — query validation and HTML sanitisation,
* `core/citations.py` — citation extraction, deduplication and formatting,
* `research_core.py` — the citation-marker-to-superscript converter,
* `web/callbacks.py` — the throttled progress callback,
* `core/research.py` — the research orchestration state machine,
* `infrastructure/file_system.py` — the atomic JSON writer.

Python strings are modelled as Lean `String` / `List Char`; floats occurring in
progress and time arithmetic are modelled as exact rationals `ℚ`; `None` and
exceptions are modelled with `Option` / `Except`.  Regex-based scanning from
the source is implemented as explicit character scanners mirroring the regex
semantics of the concrete patterns used; re-usable primitives are total
(`fuel` counters where the recursion is not structural).
-/

namespace DeepResearch

/-! ## Python string primitives -/

/-- Python whitespace test used by `str.strip()` (ASCII part; the inputs the
proofs use are ASCII). -/
def pyWs (c : Char) : Bool :=
  c = ' ' || c = '\t' || c = '\n' || c = '\r' || c = '\x0b' || c = '\x0c'

/-- Drop Python whitespace from both ends of a character list: the model of
`str.strip()`. -/
def pyStripL (cs : List Char) : List Char :=
  ((cs.dropWhile pyWs).reverse.dropWhile pyWs).reverse

/-- The model of `str.strip()` on `String`. -/
def pyStrip (s : String) : String := ⟨pyStripL s.data⟩

/-- Characters removed by `validate_research_query`'s
`re.sub(r'[<>\"\'&]', '', query)`. -/
def harmfulChar (c : Char) : Bool :=
  c = '<' || c = '>' || c = '"' || c = '\'' || c = '&'

/-- The model of `re.sub(r'[<>\"\'&]', '', q)`: removing a character class is
filtering it out. -/
def removeHarmfulL (cs : List Char) : List Char :=
  cs.filter (fun c => !harmfulChar c)

/-! ## `security/validation.py`: `validate_research_query`

The source checks, in order: non-empty input, `strip()`, emptiness of the
stripped query, the maximum length, removes the characters `<>"'&`, and
finally requires at least 3 characters after a further `strip()` of the
sanitised text.  On success it returns the sanitised (but **not**
re-stripped) string. -/

/-- Model of `validate_research_query(query, max_length)`.  `Except.error`
carries the `ValidationError` message. -/
def validate_research_query (query : String) (maxLength : Nat) : Except String String :=
  if query = "" then
    .error "Research query must be a non-empty string"
  else
    let q := pyStripL query.data
    if q.length = 0 then
      .error "Research query cannot be empty or whitespace only"
    else if q.length > maxLength then
      .error "Research query cannot exceed max_length characters"
    else
      let sanitized := removeHarmfulL q
      if (pyStripL sanitized).length < 3 then
        .error "Research query too short after sanitization"
      else
        .ok ⟨sanitized⟩

/-! ## `security/validation.py`: `sanitize_html_output`

`html.escape` followed by removal of `<script...>...</script>` blocks, of the
literal `javascript:` (case-insensitively), and of `on\w+\s*=` attribute
patterns.  Each `re.sub(..., '')` is modelled by a scanner that walks the
text left to right, removing non-overlapping matches exactly as `re.sub`
does for these patterns (the patterns involved are deterministic: their
greedy/lazy parts are resolved by maximal munch against a distinguishing
follower character, so no backtracking search is needed). -/

/-- `html.escape(s)` on one character (`quote=True` default: `&`, `<`, `>`,
`"` and `'` are escaped; `&` is replaced first in the source, so entities
introduced by the later replacements are not re-escaped, which the
character-wise map reproduces). -/
def htmlEscapeChar (c : Char) : List Char :=
  if c = '&' then "&amp;".data
  else if c = '<' then "&lt;".data
  else if c = '>' then "&gt;".data
  else if c = '"' then "&quot;".data
  else if c = '\'' then "&#x27;".data
  else [c]

def htmlEscapeL (cs : List Char) : List Char := cs.flatMap htmlEscapeChar

/-- Case-insensitive match of the literal `pat` at the head of `cs`;
returns the remainder after the match. -/
def matchLitCI : List Char → List Char → Option (List Char)
  | [], cs => some cs
  | _ :: _, [] => none
  | p :: ps, c :: cs => if c.toLower = p.toLower then matchLitCI ps cs else none

/-- Scanner for `re.sub(r'javascript:', '', s, flags=re.IGNORECASE)`:
each occurrence of the literal is dropped; scanning resumes after the
match, so text joined by a removal is not rescanned (as in `re.sub`). -/
def removeJsAux : Nat → List Char → List Char
  | 0, cs => cs
  | _ + 1, [] => []
  | fuel + 1, c :: cs =>
    match matchLitCI "javascript:".data (c :: cs) with
    | some rest => removeJsAux fuel rest
    | none => c :: removeJsAux fuel cs

def removeJsL (cs : List Char) : List Char := removeJsAux cs.length cs

/-- A Python `\w` word character (ASCII model). -/
def pyWord (c : Char) : Bool := c.isAlphanum || c = '_'

/-- Try to match `on\w+\s*=` at the head of the input (already past the
leading `on`): take one-or-more word characters, then whitespace, then
require `=`.  Maximal munch coincides with the regex here because a word
character is neither whitespace nor `=`. -/
def matchOnAttr (cs : List Char) : Option (List Char) :=
  match cs with
  | c :: _ =>
    if pyWord c then
      match (cs.dropWhile pyWord).dropWhile pyWs with
      | '=' :: rest => some rest
      | _ => none
    else none
  | [] => none

/-- Scanner for `re.sub(r'on\w+\s*=', '', s, flags=re.IGNORECASE)`. -/
def removeOnAttrAux : Nat → List Char → List Char
  | 0, cs => cs
  | _ + 1, [] => []
  | fuel + 1, c :: cs =>
    if c.toLower = 'o' then
      match cs with
      | c2 :: cs2 =>
        if c2.toLower = 'n' then
          match matchOnAttr cs2 with
          | some rest => removeOnAttrAux fuel rest
          | none => c :: removeOnAttrAux fuel cs
        else c :: removeOnAttrAux fuel cs
      | [] => [c]
    else c :: removeOnAttrAux fuel cs

def removeOnAttrL (cs : List Char) : List Char := removeOnAttrAux cs.length cs

/-- Find the first (case-insensitive) occurrence of `pat` and return the
text before it and the remainder after it — the lazy `.*?` of the script
pattern resolved against its follower. -/
def splitAtLitCI (pat : List Char) : Nat → List Char → Option (List Char × List Char)
  | 0, _ => none
  | _ + 1, [] => none
  | fuel + 1, c :: cs =>
    match matchLitCI pat (c :: cs) with
    | some rest => some ([], rest)
    | none =>
      match splitAtLitCI pat fuel cs with
      | some (pre, rest) => some (c :: pre, rest)
      | none => none

/-- Try to match `<script[^>]*>.*?</script>` at the head of the input
(already past a case-insensitive `<script`): skip to the first `>`, then
to the first `</script>`. -/
def matchScriptTail (cs : List Char) : Option (List Char) :=
  match cs.dropWhile (fun c => c ≠ '>') with
  | '>' :: rest =>
    match splitAtLitCI "</script>".data (rest.length + 1) rest with
    | some (_, after) => some after
    | none => none
  | _ => none

/-- Scanner for
`re.sub(r'<script[^>]*>.*?</script>', '', s, flags=re.IGNORECASE | re.DOTALL)`. -/
def removeScriptAux : Nat → List Char → List Char
  | 0, cs => cs
  | _ + 1, [] => []
  | fuel + 1, c :: cs =>
    if c = '<' then
      match matchLitCI "script".data cs with
      | some afterName =>
        match matchScriptTail afterName with
        | some rest => removeScriptAux fuel rest
        | none => c :: removeScriptAux fuel cs
      | none => c :: removeScriptAux fuel cs
    else c :: removeScriptAux fuel cs

def removeScriptL (cs : List Char) : List Char := removeScriptAux cs.length cs

/-- Model of `sanitize_html_output(content)` for string input: escape, then
strip script blocks, `javascript:` literals and inline event handlers. -/
def sanitize_html_output (s : String) : String :=
  ⟨removeOnAttrL (removeJsL (removeScriptL (htmlEscapeL s.data)))⟩

/-! ## `core/citations.py`: the citation engine

`extract_citations` runs five regex patterns over the sanitised content and
feeds every match through `_create_citation_from_match`, with a global cap,
per-match error isolation and duplicate suppression.  The regex *engine* is
not re-implemented here: a match is modelled by its captured groups together
with the surrounding text and span (`re.Match.groups() / .string / .start() /
.end()`), and the per-pattern match lists are a parameter (the result of
`re.finditer` on the sanitised content).  Everything the checked claims are
about — the accept/dedup/index loop, title cleaning, URL validation and
snippet extraction — is embedded from the source. -/

/-- A `re.Match` as consumed by `_create_citation_from_match`: the captured
groups, the subject string and the match span. -/
structure MatchRec where
  groups : List String
  mstring : String
  mstart : Nat
  mend : Nat

/-- A citation dictionary as produced by `Citation.to_dict`. -/
structure CitationRec where
  title : String
  url : String
  snippet : String
  index : Nat
deriving DecidableEq, Repr

/-- Characters kept by `_clean_citation_title`'s second
`re.sub(r'[^\w\s\-\.\,\:\;]', '', ...)`. -/
def titleChar (c : Char) : Bool :=
  pyWord c || pyWs c || c = '-' || c = '.' || c = ',' || c = ':' || c = ';'

/-- Collapse runs of whitespace to a single space:
`re.sub(r'\s+', ' ', s)`. -/
def collapseWsAux : Nat → List Char → List Char
  | 0, cs => cs
  | _ + 1, [] => []
  | fuel + 1, c :: cs =>
    if pyWs c then ' ' :: collapseWsAux fuel (cs.dropWhile pyWs)
    else c :: collapseWsAux fuel cs

def collapseWsL (cs : List Char) : List Char := collapseWsAux cs.length cs

/-- Model of `_clean_citation_title`. -/
def clean_citation_title (title : String) : String :=
  if title = "" then "Untitled"
  else
    let cleaned := (collapseWsL (pyStripL title.data)).filter titleChar
    let cleaned := if cleaned.length > 200 then cleaned.take 197 ++ "...".data else cleaned
    if cleaned = [] then "Untitled" else ⟨cleaned⟩

/-- Model of `_is_valid_url`: `urlparse(url).scheme in ['http', 'https']`
with a non-empty `netloc`.  For URLs of the shape the citation patterns
capture, `urlparse` yields the text before `://` (lowercased) as the scheme
and the text from there to the first `/?#` as the netloc. -/
def is_valid_url (url : String) : Bool :=
  let lower := url.data.map Char.toLower
  let netlocOf : List Char → Bool := fun rest =>
    (rest.takeWhile (fun c => c ≠ '/' && c ≠ '?' && c ≠ '#')) ≠ []
  match matchLitCI "http://".data lower with
  | some rest => netlocOf rest
  | none =>
    match matchLitCI "https://".data lower with
    | some rest => netlocOf rest
    | none => false

/-- Model of `_extract_snippet(content, start, end)`: up to 100 characters
of context on each side, whitespace-collapsed and stripped, ellipses added
on truncated sides, capped at 300 characters. -/
def extract_snippet (content : String) (start stop : Nat) : String :=
  let cs := content.data
  let snipStart := start - 100
  let snipStop := min cs.length (stop + 100)
  let snippet := (cs.take snipStop).drop snipStart
  let snippet := pyStripL (collapseWsL snippet)
  let snippet := if 0 < snipStart then "...".data ++ snippet else snippet
  let snippet := if snipStop < cs.length then snippet ++ "...".data else snippet
  ⟨snippet.take 300⟩

/-- Model of `_create_citation_from_match(match, index)`: group-arity
dispatch, title cleaning, URL validation and snippet extraction.  The
`Except` mirrors the `ValueError`s the source raises (which the caller's
per-match `try` turns into a skip). -/
def create_citation_from_match (m : MatchRec) (index : Nat) : Except String CitationRec :=
  match m.groups with
  | _ :: g1 :: g2 :: _ =>
    let title := clean_citation_title (pyStrip g1)
    let url := pyStrip g2
    if is_valid_url url then
      .ok ⟨title, url, extract_snippet m.mstring m.mstart m.mend, index⟩
    else
      .error "Invalid URL in citation"
  | g0 :: g1 :: _ =>
    let title := clean_citation_title (pyStrip g0)
    let url := pyStrip g1
    if is_valid_url url then
      .ok ⟨title, url, extract_snippet m.mstring m.mstart m.mend, index⟩
    else
      .error "Invalid URL in citation"
  | _ => .error "Insufficient groups in citation match"

/-- Python `str.lower()` (ASCII model, as used by the dedup check). -/
def pyLower (s : String) : String := ⟨s.data.map Char.toLower⟩

/-- Model of `_is_duplicate_citation`. -/
def is_duplicate_citation (c : CitationRec) (existing : List CitationRec) : Bool :=
  existing.any (fun e => c.url = e.url || pyLower c.title = pyLower e.title)

/-- One iteration of the inner `for match in matches` body (past the cap
check): try to create a citation; on success and non-duplication, append it
and advance the running index. -/
def extractStep (m : MatchRec) (st : List CitationRec × Nat) : List CitationRec × Nat :=
  match create_citation_from_match m st.2 with
  | .ok c => if is_duplicate_citation c st.1 then st else (st.1 ++ [c], st.2 + 1)
  | .error _ => st

/-- The inner `for match in matches` loop with its `break` at the cap. -/
def extractInner (maxCitations : Nat) : List MatchRec → List CitationRec × Nat → List CitationRec × Nat
  | [], st => st
  | m :: ms, st =>
    if st.1.length ≥ maxCitations then st
    else extractInner maxCitations ms (extractStep m st)

/-- The outer `for pattern in self.citation_patterns` loop with its `break`
at the cap. -/
def extractOuter (maxCitations : Nat) : List (List MatchRec) → List CitationRec × Nat → List CitationRec × Nat
  | [], st => st
  | ms :: rest, st =>
    let st := extractInner maxCitations ms st
    if st.1.length ≥ maxCitations then st
    else extractOuter maxCitations rest st

/-- The content argument of `extract_citations`: Python lets any value in. -/
inductive PyInput where
  | pynone
  | pystr (s : String)
  | pyother
deriving DecidableEq

/-- Model of `extract_citations(content)`.  `finditer pattern text` stands
for `re.finditer(pattern, text, re.IGNORECASE | re.MULTILINE)` on the
sanitised content, indexed by the position of the pattern in
`citation_patterns`; the loop, cap, dedup and indexing logic is the
source's. -/
def extract_citations (maxCitations : Nat) (finditer : Nat → String → List MatchRec)
    (content : PyInput) : List CitationRec :=
  match content with
  | .pystr s =>
    if s = "" then []
    else
      let sanitized := sanitize_html_output s
      (extractOuter maxCitations
        ((List.range 5).map (fun i => finditer i sanitized)) ([], 1)).1
  | _ => []

/-! ## `research_core.py`: `convert_citations_to_superscript`

Pass 1 rewrites every `【m:n†source】` marker to `<sup>n</sup>`; pass 2
consolidates every run of two-or-more adjacent superscript tags (optionally
separated by `\s*,?\s*`) into one tag whose indices are parsed as integers,
deduplicated and sorted ascending.  Both `re.sub` calls are modelled by
left-to-right scanners; for these patterns greedy matching is deterministic
(each quantified part is delimited by a character it cannot contain), so
maximal munch reproduces the regex semantics. -/

/-- Case-sensitive literal match at the head of the input. -/
def matchLit : List Char → List Char → Option (List Char)
  | [], cs => some cs
  | _ :: _, [] => none
  | p :: ps, c :: cs => if c = p then matchLit ps cs else none

/-- Value of a digit string, as `int()` computes it. -/
def digitsToNat (ds : List Char) : Nat :=
  ds.foldl (fun a c => a * 10 + (c.toNat - '0'.toNat)) 0

/-- Decimal digit characters of `n` (the model of `str(n)`), with a
structural fuel so that it evaluates by reduction. -/
def natDigitsAux : Nat → Nat → List Char
  | 0, _ => []
  | fuel + 1, n =>
    if n < 10 then [Char.ofNat ('0'.toNat + n)]
    else natDigitsAux fuel (n / 10) ++ [Char.ofNat ('0'.toNat + n % 10)]

def natDigits (n : Nat) : List Char := natDigitsAux (n + 1) n

/-- Match `【\d+:(\d+)†source】` at the head of the input; returns the
captured digit group and the remainder. -/
def matchMarker (cs : List Char) : Option (List Char × List Char) :=
  match cs with
  | '【' :: r =>
    match r.takeWhile Char.isDigit, r.dropWhile Char.isDigit with
    | [], _ => none
    | _ :: _, r1 =>
      match r1 with
      | ':' :: r2 =>
        match r2.takeWhile Char.isDigit, r2.dropWhile Char.isDigit with
        | [], _ => none
        | ds, r3 =>
          match matchLit "†source】".data r3 with
          | some rest => some (ds, rest)
          | none => none
      | _ => none
  | _ => none

/-- Pass 1: `re.sub(r"【\d+:(\d+)†source】", lambda m: f"<sup>{m.group(1)}</sup>", text)`.
The replacement carries the captured digit string verbatim. -/
def pass1Aux : Nat → List Char → List Char
  | 0, cs => cs
  | _ + 1, [] => []
  | fuel + 1, c :: cs =>
    match matchMarker (c :: cs) with
    | some (ds, rest) => "<sup>".data ++ ds ++ "</sup>".data ++ pass1Aux fuel rest
    | none => c :: pass1Aux fuel cs

def pass1 (cs : List Char) : List Char := pass1Aux cs.length cs

/-- Match `<sup>(\d+)</sup>` at the head of the input. -/
def matchSupTag (cs : List Char) : Option (List Char × List Char) :=
  match matchLit "<sup>".data cs with
  | some r =>
    match r.takeWhile Char.isDigit, r.dropWhile Char.isDigit with
    | [], _ => none
    | ds, r1 =>
      match matchLit "</sup>".data r1 with
      | some rest => some (ds, rest)
      | none => none
  | none => none

/-- Match one `\s*,?\s*<sup>\d+</sup>` continuation of a run: skip
whitespace, skip one optional comma and further whitespace, then require a
tag. -/
def supSepTag (cs : List Char) : Option (List Char × List Char) :=
  match cs.dropWhile pyWs with
  | c :: t => if c = ',' then matchSupTag (t.dropWhile pyWs) else matchSupTag (c :: t)
  | [] => matchSupTag []

/-- Collect the remaining tags of a run (the `(...)+` of the consolidation
pattern, greedily extended). -/
def runTagsAux : Nat → List Nat → List Char → List Nat × List Char
  | 0, acc, cs => (acc, cs)
  | fuel + 1, acc, cs =>
    match supSepTag cs with
    | some (ds, rest) => runTagsAux fuel (acc ++ [digitsToNat ds]) rest
    | none => (acc, cs)

/-- Insert into a strictly ascending list, dropping duplicates. -/
def insertSorted (n : Nat) : List Nat → List Nat
  | [] => [n]
  | m :: ms =>
    if n < m then n :: m :: ms
    else if n = m then m :: ms
    else m :: insertSorted n ms

/-- The model of `sorted(set(ns))`: the strictly ascending enumeration of
the elements of `ns`. -/
def sortedDedup (ns : List Nat) : List Nat := ns.foldr insertSorted []

/-- Comma-joined decimal rendering, as `",".join(str(n) for n in ns)`. -/
def joinComma : List Nat → List Char
  | [] => []
  | [n] => natDigits n
  | n :: m :: ns => natDigits n ++ ',' :: joinComma (m :: ns)

/-- `consolidate_and_sort_citations`: deduplicate, sort ascending and
re-emit one tag (a single surviving index uses the simple format, which
coincides with the joined format of a singleton). -/
def consolidate (ns : List Nat) : List Char :=
  let uniqueSorted := sortedDedup ns
  if uniqueSorted.length = 1 then
    "<sup>".data ++ joinComma uniqueSorted ++ "</sup>".data
  else
    "<sup>".data ++ joinComma uniqueSorted ++ "</sup>".data

/-- Pass 2: `re.sub(consecutive_pattern, consolidate_and_sort_citations, text)`,
where a match requires an initial tag plus at least one continuation. -/
def pass2Aux : Nat → List Char → List Char
  | 0, cs => cs
  | _ + 1, [] => []
  | fuel + 1, c :: cs =>
    match matchSupTag (c :: cs) with
    | some (ds, rest) =>
      match supSepTag rest with
      | some (ds2, rest2) =>
        match runTagsAux fuel [digitsToNat ds, digitsToNat ds2] rest2 with
        | (ns, rest3) => consolidate ns ++ pass2Aux fuel rest3
      | none => c :: pass2Aux fuel cs
    | none => c :: pass2Aux fuel cs

def pass2 (cs : List Char) : List Char := pass2Aux cs.length cs

/-- Model of `convert_citations_to_superscript(markdown_content)`. -/
def convert_citations_to_superscript (s : String) : String :=
  ⟨pass2 (pass1 s.data)⟩

/-! ## `web/callbacks.py`: the throttled progress callback

`ThrottledProgressCallback.__call__` forwards `(message, progress)` to the
wrapped callback whenever enough time has passed, or the progress moved by
at least the minimum delta, or the value marks a start (`0.0`) or a
completion (`≥ 1.0`); otherwise the call is dropped.  `last_call_time` and
`last_progress` are updated only on a forwarded call.  Times and progress
values are exact rationals here (the Python floats of the checked scenarios
are exactly representable decimals whose comparisons agree with the
rational ones). -/

structure ThrottleState where
  lastCallTime : ℚ
  lastProgress : ℚ
deriving DecidableEq

/-- The `__init__` state: `last_call_time = 0.0`, `last_progress = 0.0`. -/
def initThrottle : ThrottleState := ⟨0, 0⟩

/-- One `__call__(message, progress)` at wall-clock time `currentTime`:
returns the forwarded event (if any) and the successor state. -/
def throttled_call (minInterval minDelta : ℚ) (st : ThrottleState)
    (currentTime : ℚ) (message : String) (progress : ℚ) :
    Option (String × ℚ) × ThrottleState :=
  let timeElapsed := currentTime - st.lastCallTime
  let progressChange := |progress - st.lastProgress|
  if timeElapsed ≥ minInterval ∨ progressChange ≥ minDelta ∨
      progress ≥ 1 ∨ progress = 0 then
    (some (message, progress), ⟨currentTime, progress⟩)
  else
    (none, st)

/-- Fold `throttled_call` over a sequence of `(time, message, progress)`
calls, collecting the events forwarded to the wrapped callback. -/
def runThrottled (minInterval minDelta : ℚ) :
    ThrottleState → List (ℚ × String × ℚ) → List (String × ℚ)
  | _, [] => []
  | st, (t, m, p) :: rest =>
    match throttled_call minInterval minDelta st t m p with
    | (some e, st') => e :: runThrottled minInterval minDelta st' rest
    | (none, st') => runThrottled minInterval minDelta st' rest

/-- The progress record stored by the session-updating callback built in
`ProgressCallbackHandler.create_callback` — this is where
`progress = max(0.0, min(1.0, float(progress)))` clamps the value. -/
structure ProgressMessage where
  message : String
  progress : ℚ
deriving DecidableEq

/-- Model of the inner `progress_callback` of `create_callback`: the value
written into session state, with the clamp applied. -/
def handler_progress_callback (message : String) (progress : ℚ) : ProgressMessage :=
  ⟨message, max 0 (min 1 progress)⟩

/-! ## JSON values and `security/validation.py`: `sanitize_log_entry`

Log entries are JSON-serialisable Python values, modelled by `JValue`
(numbers as integers — the persisted log records carry no floats that the
checked claims depend on).  `sanitize_log_entry` cleans the top-level keys,
escapes-and-truncates top-level string values, and hands `dict`/`list`
values to `_sanitize_nested_structure`, which rewrites string values one
level deep and returns every other nested value unchanged (its body never
calls itself). -/

inductive JValue where
  | jnull
  | jbool (b : Bool)
  | jint (n : Int)
  | jstr (s : String)
  | jarr (xs : List JValue)
  | jobj (fields : List (String × JValue))

/-- `re.sub(r'[^a-zA-Z0-9_]', '_', str(key))` on one character. -/
def cleanKeyChar (c : Char) : Char :=
  if c.isAlphanum || c = '_' then c else '_'

def cleanKey (s : String) : String := ⟨s.data.map cleanKeyChar⟩

/-- The 10,000-character truncation applied to top-level string values. -/
def truncateLong (s : String) : String :=
  if s.length > 10000 then ⟨s.data.take 10000 ++ "... [TRUNCATED]".data⟩ else s

/-- The per-value rewrite `_sanitize_nested_structure` applies inside a
dict or list: strings are escaped, everything else — including nested
dicts and lists — is returned as is. -/
def nestedValueRewrite : JValue → JValue
  | .jstr s => .jstr (sanitize_html_output s)
  | v => v

/-- Model of `_sanitize_nested_structure(data)`. -/
def sanitize_nested_structure : JValue → JValue
  | .jobj fs => .jobj (fs.map (fun kv => (cleanKey kv.1, nestedValueRewrite kv.2)))
  | .jarr xs => .jarr (xs.map nestedValueRewrite)
  | v => v

/-- The treatment of one top-level value in `sanitize_log_entry`. -/
def topValueRewrite : JValue → JValue
  | .jstr s => .jstr (truncateLong (sanitize_html_output s))
  | .jobj fs => sanitize_nested_structure (.jobj fs)
  | .jarr xs => sanitize_nested_structure (.jarr xs)
  | v => v

/-- Model of `sanitize_log_entry(entry)` (a Python dict as an association
list; key collisions after cleaning, which a dict would merge, do not occur
in the checked inputs). -/
def sanitize_log_entry (entry : List (String × JValue)) : List (String × JValue) :=
  entry.map (fun kv => (cleanKey kv.1, topValueRewrite kv.2))

/-! ## `core/citations.py`: `convert_to_superscript`

The modern processor's converter (used on the orchestrator's success path):
`re.sub(r'\[(\d+)\]', r'<sup>[\1]</sup>', ...)` followed by
`re.sub(r'(\w)\s*(\d+)(?=\s*[\.!?])', r'\1<sup>\2</sup>', ...)`.  Both are
deterministic patterns, modelled by scanners. -/

/-- Match `\[(\d+)\]` at the head of the input. -/
def matchBracketNum (cs : List Char) : Option (List Char × List Char) :=
  match cs with
  | '[' :: r =>
    match r.takeWhile Char.isDigit, r.dropWhile Char.isDigit with
    | [], _ => none
    | ds, r1 =>
      match r1 with
      | ']' :: rest => some (ds, rest)
      | _ => none
  | _ => none

def bracketSupAux : Nat → List Char → List Char
  | 0, cs => cs
  | _ + 1, [] => []
  | fuel + 1, c :: cs =>
    match matchBracketNum (c :: cs) with
    | some (ds, rest) =>
      "<sup>[".data ++ ds ++ "]</sup>".data ++ bracketSupAux fuel rest
    | none => c :: bracketSupAux fuel cs

/-- Match `(\w)\s*(\d+)(?=\s*[\.!?])` at the head: a word character,
whitespace, a digit run, and an unconsumed sentence-ending lookahead. -/
def matchTrailingNum (c : Char) (cs : List Char) : Option (List Char × List Char) :=
  if pyWord c then
    let afterWs := cs.dropWhile pyWs
    match afterWs.takeWhile Char.isDigit, afterWs.dropWhile Char.isDigit with
    | [], _ => none
    | ds, r1 =>
      match r1.dropWhile pyWs with
      | p :: _ => if p = '.' || p = '!' || p = '?' then some (ds, r1) else none
      | [] => none
  else none

def trailingSupAux : Nat → List Char → List Char
  | 0, cs => cs
  | _ + 1, [] => []
  | fuel + 1, c :: cs =>
    match matchTrailingNum c cs with
    | some (ds, rest) =>
      c :: ("<sup>".data ++ ds ++ "</sup>".data) ++ trailingSupAux fuel rest
    | none => c :: trailingSupAux fuel cs

/-- Model of `CitationProcessor.convert_to_superscript(content)` for string
input (empty input is returned unchanged by the source's guard). -/
def cp_convert_to_superscript (content : String) : String :=
  if content = "" then content
  else
    let step1 := bracketSupAux content.data.length content.data
    ⟨trailingSupAux step1.length step1⟩

/-! ## `core/research.py`: the orchestrator

`ResearchService._conduct_research_sync` and its helpers.  The remote
service (`client.agents.*`) is a parameter: a `ResearchEnv` carries the
outcome of each remote call — either its value or the message of the
exception it raises.  A progress callback is a function from the call's
`(message, progress)` arguments, returning `none` for a normal return and
`some msg` for a raised exception (the orchestrator's `try` blocks treat
the two exactly as Python does). -/

structure AgentRec where
  id : String
  name : String
deriving DecidableEq

/-- A thread message as consumed by the assistant-response search: its role
and the `text.value` of its text content items. -/
structure MsgRec where
  role : String
  texts : List String

/-- The remote-call outcomes of one `_conduct_research_sync` execution. -/
structure ResearchEnv where
  clientOk : Except String Unit
  listAgents : Except String (List AgentRec)
  bingConn : Except String String
  createAgent : Except String AgentRec
  createThread : Except String String
  postMessage : Except String Unit
  createRun : Except String String
  getRun : Nat → Except String String
  lastRunError : Nat → String
  listMessages : Except String (List MsgRec)
  elapsed : ℚ
  elapsedOnError : ℚ
  startTimestamp : String

/-- A progress callback: `none` = returns normally, `some msg` = raises. -/
def Cb : Type := String → ℚ → Option String

/-- Substring test (`needle in hay`). -/
def hasSubstr (needle : List Char) : List Char → Bool
  | [] => needle.isEmpty
  | c :: cs => (matchLit needle (c :: cs)).isSome || hasSubstr needle cs

/-- Model of `_get_research_agent`: prefer an existing agent whose lowered
name contains `deep-research`; otherwise resolve the Bing connection and
create one.  Any failure is wrapped into an `AzureClientError`. -/
def get_research_agent (env : ResearchEnv) : Except String AgentRec :=
  let inner : Except String AgentRec :=
    match env.listAgents with
    | .error e => .error e
    | .ok agents =>
      match agents.find? (fun a =>
          hasSubstr "deep-research".data (a.name.data.map Char.toLower)) with
      | some a => .ok a
      | none =>
        match env.bingConn with
        | .error e => .error e
        | .ok _ => env.createAgent
  match inner with
  | .ok a => .ok a
  | .error e => .error ("Failed to get research agent: " ++ e)

/-- Model of `_create_research_thread`: create the thread, post the user
message, return the thread id; failures wrapped. -/
def create_research_thread (env : ResearchEnv) : Except String String :=
  let inner : Except String String :=
    match env.createThread with
    | .error e => .error e
    | .ok tid =>
      match env.postMessage with
      | .error e => .error e
      | .ok _ => .ok tid
  match inner with
  | .ok tid => .ok tid
  | .error e => .error ("Failed to create research thread: " ++ e)

/-- The distinct failure classes of `_execute_research`, one per `raise`
site (plus raised callback and remote-call exceptions). -/
inductive ExecFailure where
  | remote (msg : String)
  | cbRaise (msg : String)
  | runTerminal (status : String) (lastError : String)
  | budgetExceeded (maxIterations : Nat)
  | noContent
deriving DecidableEq

/-- The `str(e)` of each failure, matching the source's message templates. -/
def renderExecFailure : ExecFailure → String
  | .remote m => m
  | .cbRaise m => m
  | .runTerminal status lastError => "Research run " ++ status ++ ": " ++ lastError
  | .budgetExceeded n =>
    "Research did not complete within " ++ (⟨natDigits n⟩ : String) ++ " iterations"
  | .noContent => "No research content found in agent response"

/-- The poll loop of `_execute_research`: at most `maxIterations`
iterations; each fetches the run status, breaks on `completed`, raises on a
terminal failure, and otherwise reports progress
`0.2 + (iteration / maxIterations) * 0.7` before the next round.  Returns
the last status fetched (or the creation status if no iteration ran). -/
def pollLoop (env : ResearchEnv) (cb : Cb) (maxIterations : Nat) :
    Nat → Nat → String → Except ExecFailure String
  | 0, _, current => .ok current
  | remaining + 1, i, _ =>
    match env.getRun i with
    | .error e => .error (.remote e)
    | .ok status =>
      if status = "completed" then .ok status
      else if status = "failed" ∨ status = "cancelled" ∨ status = "expired" then
        .error (.runTerminal status (env.lastRunError i))
      else
        match cb ("Research in progress... (iteration " ++ (⟨natDigits (i + 1)⟩ : String) ++ ")")
            (1/5 + (i : ℚ) / (maxIterations : ℚ) * (7/10)) with
        | some m => .error (.cbRaise m)
        | none => pollLoop env cb maxIterations remaining (i + 1) status

/-- The assistant-response search at the end of `_execute_research`. -/
def findAssistantContent : List MsgRec → Except ExecFailure String
  | [] => .error .noContent
  | m :: rest =>
    if m.role = "assistant" then
      let content := String.join m.texts
      if pyStrip content ≠ "" then .ok (pyStrip content)
      else findAssistantContent rest
    else findAssistantContent rest

/-- The body of `_execute_research`'s `try` block, with its failure class. -/
def execInner (env : ResearchEnv) (cb : Cb) (maxIterations : Nat) :
    Except ExecFailure String :=
  match env.createRun with
  | .error e => .error (.remote e)
  | .ok initialStatus =>
    match pollLoop env cb maxIterations maxIterations 0 initialStatus with
    | .error e => .error e
    | .ok finalStatus =>
      if finalStatus ≠ "completed" then .error (.budgetExceeded maxIterations)
      else
        match env.listMessages with
        | .error e => .error (.remote e)
        | .ok msgs => findAssistantContent msgs

/-- Model of `_execute_research`: the inner body with every failure
re-raised as `AzureClientError(f"Failed to execute research: {e}")`. -/
def execute_research (env : ResearchEnv) (cb : Cb) (maxIterations : Nat) :
    Except String String :=
  match execInner env cb maxIterations with
  | .ok content => .ok content
  | .error e => .error ("Failed to execute research: " ++ renderExecFailure e)

structure ResearchRequest where
  query : String
  maxIterations : Nat
  enableCitations : Bool

structure ResearchResult where
  content : String
  citations : List CitationRec
  metadata : List (String × String)
  executionTimeSeconds : ℚ
  success : Bool
  errorMessage : Option String

/-- A callback call site inside a `try` block: a raised callback exception
becomes the block's exception. -/
def callCb (cb : Cb) (message : String) (progress : ℚ) : Except String Unit :=
  match cb message progress with
  | some e => .error e
  | none => .ok ()

/-- The `try` body of `_conduct_research_sync`: setup, agent, thread, run,
citation post-processing and the success result; the final progress report
happens before the `return`, still inside the `try`. -/
def conduct_try (env : ResearchEnv) (finditer : Nat → String → List MatchRec)
    (req : ResearchRequest) (cb : Cb) : Except String ResearchResult :=
  match callCb cb "Starting research..." 0 with
  | .error e => .error e
  | .ok _ =>
  match env.clientOk with
  | .error e => .error e
  | .ok _ =>
  match get_research_agent env with
  | .error e => .error e
  | .ok agent =>
  match callCb cb "Agent ready, creating thread..." (1/10) with
  | .error e => .error e
  | .ok _ =>
  match create_research_thread env with
  | .error e => .error e
  | .ok threadId =>
  match callCb cb "Thread created, starting research..." (1/5) with
  | .error e => .error e
  | .ok _ =>
  match execute_research env cb req.maxIterations with
  | .error e => .error e
  | .ok rawContent =>
  match callCb cb "Research completed, processing results..." (9/10) with
  | .error e => .error e
  | .ok _ =>
    let citations :=
      if req.enableCitations then extract_citations 50 finditer (.pystr rawContent) else []
    let content :=
      if req.enableCitations then cp_convert_to_superscript rawContent else rawContent
    match callCb cb "Research completed successfully!" 1 with
    | .error e => .error e
    | .ok _ =>
      .ok { content := content
            citations := citations
            metadata := [("agent_id", agent.id), ("thread_id", threadId),
                         ("query", req.query),
                         ("max_iterations", (⟨natDigits req.maxIterations⟩ : String)),
                         ("timestamp", env.startTimestamp)]
            executionTimeSeconds := env.elapsed
            success := true
            errorMessage := none }

/-- Model of `_conduct_research_sync`: the `try` body above, with the
`except Exception` handler that reports the failure through the callback
(an exception raised *there* propagates to the caller) and returns a
`success=False` result. -/
def conduct_research_sync (env : ResearchEnv) (finditer : Nat → String → List MatchRec)
    (req : ResearchRequest) (cb : Cb) : Except String ResearchResult :=
  match conduct_try env finditer req cb with
  | .ok r => .ok r
  | .error e =>
    match cb ("Research failed: " ++ e) 1 with
    | some ce => .error ce
    | none =>
      .ok { content := ""
            citations := []
            metadata := [("query", req.query), ("timestamp", env.startTimestamp)]
            executionTimeSeconds := env.elapsedOnError
            success := false
            errorMessage := some ("Research failed: " ++ e) }

/-! ## `infrastructure/file_system.py`: the atomic JSON writer

`write_json(path, data, sanitize=True, atomic=True)` sanitises the entry,
then `_atomic_write_json` serialises it with
`json.dump(data, tmp, indent=2, ensure_ascii=False)` into a fresh
`NamedTemporaryFile(suffix='.tmp')` in the target's directory and
`shutil.move`s it onto the target.  The file system is a map from paths to
contents; the temporary path is fresh (its `.tmp` suffix is outside the
handler's allowed target extensions, so it always differs from the target,
which the theorems take as a hypothesis).  `json.dump` and `json.load` are
modelled by a serialiser and a fuel-based recursive parser over `JValue`
(numbers as integers). -/

def nSpaces (n : Nat) : List Char := List.replicate n ' '

def hexDigit (n : Nat) : Char :=
  if n < 10 then Char.ofNat ('0'.toNat + n) else Char.ofNat ('a'.toNat + (n - 10))

/-- One character as `json.dump` writes it inside a string literal
(`ensure_ascii=False`: only `"`, `\` and control characters are escaped). -/
def jsonEscapeChar (c : Char) : List Char :=
  if c = '"' then ['\\', '"']
  else if c = '\\' then ['\\', '\\']
  else if c = '\n' then ['\\', 'n']
  else if c = '\t' then ['\\', 't']
  else if c = '\r' then ['\\', 'r']
  else if c = '\x08' then ['\\', 'b']
  else if c = '\x0c' then ['\\', 'f']
  else if c.toNat < 0x20 then
    ['\\', 'u', '0', '0', hexDigit (c.toNat / 16), hexDigit (c.toNat % 16)]
  else [c]

/-- A JSON string literal. -/
def jsonStrL (s : String) : List Char :=
  '"' :: (s.data.flatMap jsonEscapeChar ++ ['"'])

/-- The characters of `repr(n)` for an integer. -/
def intDigits (n : Int) : List Char :=
  (if n < 0 then ['-'] else []) ++ natDigits n.natAbs

mutual

/-- `json.dump(v, ..., indent=2, ensure_ascii=False)` at indentation `d`:
non-empty containers open with a newline, indent their entries by `d + 2`,
separate them with `,\n` and close at indentation `d`. -/
def dumpVal : JValue → Nat → List Char
  | .jnull, _ => "null".data
  | .jbool true, _ => "true".data
  | .jbool false, _ => "false".data
  | .jint n, _ => intDigits n
  | .jstr s, _ => jsonStrL s
  | .jarr [], _ => "[]".data
  | .jarr (x :: xs), d =>
    '[' :: '\n' :: nSpaces (d + 2) ++ dumpVal x (d + 2) ++ dumpSepItems xs (d + 2)
      ++ '\n' :: nSpaces d ++ [']']
  | .jobj [], _ => "{}".data
  | .jobj (f :: fs), d =>
    '{' :: '\n' :: nSpaces (d + 2) ++ jsonStrL f.1 ++ ':' :: ' ' :: dumpVal f.2 (d + 2)
      ++ dumpSepFields fs (d + 2) ++ '\n' :: nSpaces d ++ ['}']

/-- The `,\n`-separated continuation of a non-empty array. -/
def dumpSepItems : List JValue → Nat → List Char
  | [], _ => []
  | y :: ys, d => ',' :: '\n' :: nSpaces d ++ dumpVal y d ++ dumpSepItems ys d

/-- The `,\n`-separated continuation of a non-empty object. -/
def dumpSepFields : List (String × JValue) → Nat → List Char
  | [], _ => []
  | (k, v) :: fs, d =>
    ',' :: '\n' :: nSpaces d ++ jsonStrL k ++ ':' :: ' ' :: dumpVal v d ++ dumpSepFields fs d

end

/-- The serialised form of a log entry, as written by `_atomic_write_json`. -/
def jsonDump (entry : List (String × JValue)) : String := ⟨dumpVal (.jobj entry) 0⟩

/-- JSON whitespace, as skipped by `json.load`. -/
def jsonWs (c : Char) : Bool := c = ' ' || c = '\t' || c = '\n' || c = '\r'

def skipWS (cs : List Char) : List Char := cs.dropWhile jsonWs

def hexValC (c : Char) : Option Nat :=
  if '0' ≤ c ∧ c ≤ '9' then some (c.toNat - '0'.toNat)
  else if 'a' ≤ c ∧ c ≤ 'f' then some (c.toNat - 'a'.toNat + 10)
  else if 'A' ≤ c ∧ c ≤ 'F' then some (c.toNat - 'A'.toNat + 10)
  else none

def jsonUnescape (c : Char) : Option Char :=
  if c = '"' then some '"'
  else if c = '\\' then some '\\'
  else if c = '/' then some '/'
  else if c = 'n' then some '\n'
  else if c = 't' then some '\t'
  else if c = 'r' then some '\r'
  else if c = 'b' then some '\x08'
  else if c = 'f' then some '\x0c'
  else none

/-- The body of a JSON string literal, after the opening quote. -/
def parseStrBody (acc : List Char) : List Char → Option (String × List Char)
  | [] => none
  | c :: rest =>
    if c = '"' then some (⟨acc.reverse⟩, rest)
    else if c = '\\' then
      match rest with
      | [] => none
      | e :: r2 =>
        if e = 'u' then
          match r2 with
          | a :: b :: c3 :: d :: r3 =>
            match hexValC a, hexValC b, hexValC c3, hexValC d with
            | some va, some vb, some vc, some vd =>
              parseStrBody (Char.ofNat (((va * 16 + vb) * 16 + vc) * 16 + vd) :: acc) r3
            | _, _, _, _ => none
          | _ => none
        else
          match jsonUnescape e with
          | some ch => parseStrBody (ch :: acc) r2
          | none => none
    else parseStrBody (c :: acc) rest

/-- An integer literal (the number grammar restricted to the integers the
serialiser emits). -/
def parseIntL (cs : List Char) : Option (Int × List Char) :=
  match cs with
  | [] => none
  | c :: r =>
    if c = '-' then
      match r.takeWhile Char.isDigit, r.dropWhile Char.isDigit with
      | [], _ => none
      | ds, rest => some (-(digitsToNat ds : Int), rest)
    else
      match (c :: r).takeWhile Char.isDigit, (c :: r).dropWhile Char.isDigit with
      | [], _ => none
      | ds, rest => some ((digitsToNat ds : Int), rest)

mutual

/-- A fuel-based recursive-descent JSON value parser (the model of
`json.load`; total by fuel, which the entry point sets above the input
length). -/
def jparse : Nat → List Char → Option (JValue × List Char)
  | 0, _ => none
  | fuel + 1, cs =>
    match skipWS cs with
    | [] => none
    | c :: r =>
      if c = 'n' then
        match matchLit "ull".data r with
        | some rest => some (.jnull, rest)
        | none => none
      else if c = 't' then
        match matchLit "rue".data r with
        | some rest => some (.jbool true, rest)
        | none => none
      else if c = 'f' then
        match matchLit "alse".data r with
        | some rest => some (.jbool false, rest)
        | none => none
      else if c = '"' then
        match parseStrBody [] r with
        | some (s, rest) => some (.jstr s, rest)
        | none => none
      else if c = '[' then
        match skipWS r with
        | [] => none
        | c1 :: r1 =>
          if c1 = ']' then some (.jarr [], r1)
          else
            match jparseItems fuel (c1 :: r1) with
            | some (xs, rest) => some (.jarr xs, rest)
            | none => none
      else if c = '{' then
        match skipWS r with
        | [] => none
        | c1 :: r1 =>
          if c1 = '}' then some (.jobj [], r1)
          else
            match jparseFields fuel (c1 :: r1) with
            | some (fs, rest) => some (.jobj fs, rest)
            | none => none
      else
        match parseIntL (c :: r) with
        | some (n, rest) => some (.jint n, rest)
        | none => none

/-- One-or-more comma-separated array elements, up to the closing `]`. -/
def jparseItems : Nat → List Char → Option (List JValue × List Char)
  | 0, _ => none
  | fuel + 1, cs =>
    match jparse fuel cs with
    | none => none
    | some (v, r) =>
      match skipWS r with
      | [] => none
      | c :: r2 =>
        if c = ',' then
          match jparseItems fuel r2 with
          | some (vs, rest) => some (v :: vs, rest)
          | none => none
        else if c = ']' then some ([v], r2)
        else none

/-- One-or-more `"key": value` members, up to the closing `}`. -/
def jparseFields : Nat → List Char → Option (List (String × JValue) × List Char)
  | 0, _ => none
  | fuel + 1, cs =>
    match skipWS cs with
    | [] => none
    | c :: r =>
      if c = '"' then
        match parseStrBody [] r with
        | none => none
        | some (k, r1) =>
          match skipWS r1 with
          | [] => none
          | c2 :: r2 =>
            if c2 = ':' then
              match jparse fuel r2 with
              | none => none
              | some (v, r3) =>
                match skipWS r3 with
                | [] => none
                | c3 :: r4 =>
                  if c3 = ',' then
                    match jparseFields fuel r4 with
                    | some (fs, rest) => some ((k, v) :: fs, rest)
                    | none => none
                  else if c3 = '}' then some ([(k, v)], r4)
                  else none
            else none
      else none

end

/-- Model of `json.load` on a whole document. -/
def json_load (s : String) : Option JValue :=
  match jparse (s.data.length + 1) s.data with
  | some (v, rest) => if skipWS rest = [] then some v else none
  | none => none

/-- The file system: a map from paths to file contents. -/
def FS : Type := String → Option String

def setFile (fs : FS) (p : String) (content : String) : FS :=
  fun q => if q = p then some content else fs q

/-- `shutil.move(src, dst)` on a same-directory rename. -/
def renameFile (fs : FS) (src dst : String) : FS :=
  fun q => if q = dst then fs src else if q = src then none else fs q

/-- `_atomic_write_json`: create the temporary file, serialise into it,
atomically move it onto the target. -/
def atomic_write_json (fs : FS) (tmp target : String) (content : String) : FS :=
  renameFile (setFile (setFile fs tmp "") tmp content) tmp target

/-- The data actually serialised by `write_json`. -/
def write_json_data (entry : List (String × JValue)) (sanitize : Bool) :
    List (String × JValue) :=
  if sanitize then sanitize_log_entry entry else entry

/-- Model of `write_json(..., atomic=True)`: the file-system state after a
completed call. -/
def write_json_atomic (fs : FS) (tmp target : String)
    (entry : List (String × JValue)) (sanitize : Bool) : FS :=
  atomic_write_json fs tmp target (jsonDump (write_json_data entry sanitize))

/-- The file-system states reachable if the writer is interrupted anywhere
before the final rename: nothing has happened yet, or the temporary file
holds some prefix of the serialised content (creation = the empty prefix). -/
def interruptedBeforeRename (fs : FS) (tmp : String) (content : String) (fs' : FS) : Prop :=
  fs' = fs ∨ ∃ k : Nat, fs' = setFile fs tmp ⟨content.data.take k⟩

/-! ## Input families used by the statements -/

/-- A rendered superscript tag `<sup>n</sup>`. -/
def supTagL (n : Nat) : List Char :=
  "<sup>".data ++ natDigits n ++ "</sup>".data

/-- A separator the consolidation pattern's `\s*,?\s*` accepts: spaces, an
optional comma, spaces. -/
def sepChars (w1 : Nat) (comma : Bool) (w2 : Nat) : List Char :=
  List.replicate w1 ' ' ++ (if comma then [','] else []) ++ List.replicate w2 ' '

/-- The continuation of a run of adjacent superscript tags: separator, tag,
separator, tag, ... -/
def runTail (w1 : Nat) (comma : Bool) (w2 : Nat) : List Nat → List Char
  | [] => []
  | n :: ns => sepChars w1 comma w2 ++ supTagL n ++ runTail w1 comma w2 ns

/-- A run of adjacent superscript tags with the given separator shape. -/
def supRun (w1 : Nat) (comma : Bool) (w2 : Nat) : List Nat → List Char
  | [] => []
  | n :: ns => supTagL n ++ runTail w1 comma w2 ns

/-- A remote environment whose run never reaches a terminal state: every
poll returns `in_progress`.  Agent discovery finds an existing
`deep-research` agent; thread creation succeeds. -/
def envPoll : ResearchEnv :=
  { clientOk := .ok ()
    listAgents := .ok [⟨"agent-1", "Deep-Research Agent"⟩]
    bingConn := .ok "conn-1"
    createAgent := .error "unreached"
    createThread := .ok "thread-1"
    postMessage := .ok ()
    createRun := .ok "queued"
    getRun := fun _ => .ok "in_progress"
    lastRunError := fun _ => ""
    listMessages := .ok []
    elapsed := 5
    elapsedOnError := 6
    startTimestamp := "2024-01-01T00:00:00" }

/-- The silent progress callback: never raises. -/
def cbNone : Cb := fun _ _ => none

/-- A progress callback that raises on every call — allowed by Python's
duck-typed callback argument. -/
def cbRaise : Cb := fun _ _ => some "ui crashed"

/-- An empty regex-match oracle (no citation-shaped text in the content). -/
def noMatches : Nat → String → List MatchRec := fun _ _ => []

/-- Generic nothing-to-take side condition: the head (if any) fails `p`. -/
def headNotP (p : Char → Bool) : List Char → Bool
  | [] => true
  | c :: _ => !p c

/-- Nothing-after-digit side condition for number parsing. -/
def headNotDigit (cs : List Char) : Bool := headNotP Char.isDigit cs

/-- Distinctness of two accepted citations, as `_is_duplicate_citation`
checks it: different URLs and case-insensitively different titles. -/
def citDistinct (a b : CitationRec) : Prop :=
  a.url ≠ b.url ∧ pyLower a.title ≠ pyLower b.title

/-- The loop invariant of `extract_citations`' accumulator: the running
index trails the list by one, the stored indices are `1, 2, ..., n`, the
cap holds, and all stored citations are pairwise distinct. -/
def extractInv (maxCitations : Nat) (st : List CitationRec × Nat) : Prop :=
  st.2 = st.1.length + 1 ∧
  st.1.map CitationRec.index = List.range' 1 st.1.length ∧
  st.1.length ≤ maxCitations ∧
  st.1.Pairwise citDistinct

/-! ## Helper lemmas: decimal digits -/

theorem natDigitsAux_congr : ∀ n f1 f2, n < f1 → n < f2 →
    natDigitsAux f1 n = natDigitsAux f2 n := by
  intro n
  induction n using Nat.strong_induction_on with
  | _ n ih =>
    intro f1 f2 h1 h2
    match f1, f2, h1, h2 with
    | a + 1, b + 1, h1, h2 =>
      simp only [natDigitsAux]
      by_cases h10 : n < 10
      · simp [h10]
      · have hdiv : n / 10 < n := Nat.div_lt_self (by omega) (by omega)
        simp only [if_neg h10]
        rw [ih (n / 10) hdiv a b (by omega) (by omega)]

theorem natDigitsAux_irrel (fuel n : Nat) (h : n < fuel) :
    natDigitsAux fuel n = natDigits n :=
  natDigitsAux_congr n fuel (n + 1) h (by omega)

theorem natDigits_unfold (n : Nat) :
    natDigits n = if n < 10 then [Char.ofNat ('0'.toNat + n)]
      else natDigits (n / 10) ++ [Char.ofNat ('0'.toNat + n % 10)] := by
  show natDigitsAux (n + 1) n = _
  by_cases h10 : n < 10
  · simp [natDigitsAux, h10]
  · simp only [natDigitsAux, if_neg h10]
    have hdiv : n / 10 < n := Nat.div_lt_self (by omega) (by omega)
    rw [natDigitsAux_irrel n (n / 10) hdiv]

theorem digitChar_toNat {k : Nat} (h : k < 10) :
    (Char.ofNat ('0'.toNat + k)).toNat = '0'.toNat + k ∧
      (Char.ofNat ('0'.toNat + k)).isDigit = true := by
  interval_cases k <;> exact ⟨by decide, by decide⟩

theorem natDigits_ne_nil (n : Nat) : natDigits n ≠ [] := by
  rw [natDigits_unfold]
  by_cases h10 : n < 10 <;> simp [h10]

theorem natDigits_all_digits (n : Nat) : ∀ c ∈ natDigits n, c.isDigit = true := by
  induction n using Nat.strong_induction_on with
  | _ n ih =>
    rw [natDigits_unfold]
    by_cases h10 : n < 10
    · simp only [if_pos h10, List.mem_singleton]
      rintro c rfl
      exact (digitChar_toNat h10).2
    · simp only [if_neg h10, List.mem_append, List.mem_singleton]
      rintro c (hc | rfl)
      · exact ih (n / 10) (Nat.div_lt_self (by omega) (by omega)) c hc
      · exact (digitChar_toNat (Nat.mod_lt _ (by omega))).2

theorem digitsToNat_append (ds : List Char) (c : Char) :
    digitsToNat (ds ++ [c]) = 10 * digitsToNat ds + (c.toNat - '0'.toNat) := by
  simp [digitsToNat, List.foldl_append, Nat.mul_comm]

theorem digitsToNat_natDigits (n : Nat) : digitsToNat (natDigits n) = n := by
  have h0 : '0'.toNat = 48 := rfl
  induction n using Nat.strong_induction_on with
  | _ n ih =>
    rw [natDigits_unfold]
    by_cases h10 : n < 10
    · simp only [if_pos h10]
      simp only [digitsToNat, List.foldl_cons, List.foldl_nil, Nat.zero_mul, Nat.zero_add]
      rw [(digitChar_toNat h10).1]
      omega
    · simp only [if_neg h10]
      rw [digitsToNat_append, ih (n / 10) (Nat.div_lt_self (by omega) (by omega)),
        (digitChar_toNat (Nat.mod_lt _ (by omega))).1]
      omega

theorem takeWhile_digits (ds rest : List Char) (hds : ∀ c ∈ ds, c.isDigit = true)
    (hrest : headNotDigit rest = true) :
    (ds ++ rest).takeWhile Char.isDigit = ds ∧ (ds ++ rest).dropWhile Char.isDigit = rest := by
  induction ds with
  | nil =>
    simp only [List.nil_append]
    cases rest with
    | nil => exact ⟨rfl, rfl⟩
    | cons c t =>
      simp only [headNotDigit, headNotP, Bool.not_eq_true'] at hrest
      simp [List.takeWhile_cons, List.dropWhile_cons, hrest]
  | cons c t ih =>
    have hc : c.isDigit = true := hds c (by simp)
    have ht := ih (fun x hx => hds x (by simp [hx]))
    simp [List.takeWhile_cons, List.dropWhile_cons, hc, ht.1, ht.2]

theorem digit_ne {c : Char} (h : c.isDigit = true) :
    c ≠ 'n' ∧ c ≠ 't' ∧ c ≠ 'f' ∧ c ≠ '"' ∧ c ≠ '[' ∧ c ≠ '{' ∧ c ≠ '-' ∧
      c ≠ ']' ∧ c ≠ '}' ∧ c ≠ '<' ∧ c ≠ ',' := by
  refine ⟨?_, ?_, ?_, ?_, ?_, ?_, ?_, ?_, ?_, ?_, ?_⟩ <;>
    (rintro rfl; exact absurd h (by decide))

theorem digit_not_jsonWs {c : Char} (h : c.isDigit = true) : jsonWs c = false := by
  rw [Bool.eq_false_iff]
  intro hws
  simp only [jsonWs, Bool.or_eq_true, decide_eq_true_eq] at hws
  rcases hws with ((rfl | rfl) | rfl) | rfl <;> exact absurd h (by decide)

theorem digit_not_pyWs {c : Char} (h : c.isDigit = true) : pyWs c = false := by
  rw [Bool.eq_false_iff]
  intro hws
  simp only [pyWs, Bool.or_eq_true, decide_eq_true_eq] at hws
  rcases hws with ((((rfl | rfl) | rfl) | rfl) | rfl) | rfl <;> exact absurd h (by decide)

/-! ## Helper lemmas: whitespace and stripping -/

theorem dropWhile_append_of_pred {p : Char → Bool} (pre z : List Char)
    (hpre : ∀ c ∈ pre, p c = true) :
    (pre ++ z).dropWhile p = z.dropWhile p := by
  induction pre with
  | nil => rfl
  | cons c t ih =>
    have hc := hpre c (by simp)
    simp [List.dropWhile_cons, hc, ih (fun x hx => hpre x (by simp [hx]))]

theorem dropWhile_cons_of_neg {p : Char → Bool} {c : Char} (t : List Char)
    (hc : p c = false) : (c :: t).dropWhile p = c :: t := by
  simp [List.dropWhile_cons, hc]

theorem skipWS_append_ws (pre z : List Char) (hpre : ∀ c ∈ pre, jsonWs c = true) :
    skipWS (pre ++ z) = skipWS z :=
  dropWhile_append_of_pred pre z hpre

theorem skipWS_not_ws {c : Char} (t : List Char) (hc : jsonWs c = false) :
    skipWS (c :: t) = c :: t :=
  dropWhile_cons_of_neg t hc

theorem nSpaces_ws (d : Nat) : ∀ c ∈ nSpaces d, jsonWs c = true := by
  intro c hc
  have : c = ' ' := List.eq_of_mem_replicate hc
  subst this; decide

/-- Dropping leading whitespace only removes list elements. -/
theorem dropWhile_subset {p : Char → Bool} (cs : List Char) :
    ∀ c ∈ cs.dropWhile p, c ∈ cs := by
  intro c hc
  exact (List.dropWhile_sublist p (l := cs)).subset hc

theorem pyStripL_subset (cs : List Char) : ∀ c ∈ pyStripL cs, c ∈ cs := by
  intro c hc
  simp only [pyStripL, List.mem_reverse] at hc
  have h1 := dropWhile_subset (p := pyWs) (cs.dropWhile pyWs).reverse c hc
  rw [List.mem_reverse] at h1
  exact dropWhile_subset cs c h1

theorem pyStripL_length_le (cs : List Char) : (pyStripL cs).length ≤ cs.length := by
  simp only [pyStripL, List.length_reverse]
  calc ((cs.dropWhile pyWs).reverse.dropWhile pyWs).length
      ≤ (cs.dropWhile pyWs).reverse.length := (List.dropWhile_sublist _).length_le
    _ = (cs.dropWhile pyWs).length := List.length_reverse _
    _ ≤ cs.length := (List.dropWhile_sublist _).length_le

/-- The head of `dropWhile p` fails `p`. -/
theorem dropWhile_head_neg {p : Char → Bool} (cs : List Char) :
    headNotP p (cs.dropWhile p) = true := by
  induction cs with
  | nil => rfl
  | cons c t ih =>
    by_cases hc : p c = true
    · simpa [List.dropWhile_cons, hc] using ih
    · simp only [Bool.not_eq_true] at hc
      simp [List.dropWhile_cons, hc, headNotP]

theorem dropWhile_of_headNeg {p : Char → Bool} (cs : List Char)
    (h : headNotP p cs = true) : cs.dropWhile p = cs := by
  cases cs with
  | nil => rfl
  | cons c t =>
    simp only [headNotP, Bool.not_eq_true'] at h
    simp [List.dropWhile_cons, h]

/-- The right strip yields an initial segment of its input, so a non-empty
result keeps the input's head. -/
theorem stripEnd_initial (p : Char → Bool) (x : List Char) :
    ∃ t, (x.reverse.dropWhile p).reverse ++ t = x := by
  obtain ⟨s, hs⟩ : ∃ s, s ++ x.reverse.dropWhile p = x.reverse := by
    induction x.reverse with
    | nil => exact ⟨[], rfl⟩
    | cons c r ih =>
      by_cases hc : p c = true
      · obtain ⟨s, hs⟩ := ih
        exact ⟨c :: s, by simp [List.dropWhile_cons, hc, hs]⟩
      · simp only [Bool.not_eq_true] at hc
        exact ⟨[], by simp [List.dropWhile_cons, hc]⟩
  refine ⟨s.reverse, ?_⟩
  have := congrArg List.reverse hs
  simpa using this

/-- Stripping both ends is idempotent: the second strip finds no whitespace
to remove on either side. -/
theorem pyStripL_idem (cs : List Char) : pyStripL (pyStripL cs) = pyStripL cs := by
  have hL : headNotP pyWs (cs.dropWhile pyWs) = true := dropWhile_head_neg cs
  have hstep : (pyStripL cs).dropWhile pyWs = pyStripL cs := by
    apply dropWhile_of_headNeg
    obtain ⟨t, ht⟩ := stripEnd_initial pyWs (cs.dropWhile pyWs)
    rcases hres : pyStripL cs with _ | ⟨c, r⟩
    · rfl
    · simp only [pyStripL] at hres
      rw [hres] at ht
      rw [← ht] at hL
      simpa [headNotP] using hL
  show (((pyStripL cs).dropWhile pyWs).reverse.dropWhile pyWs).reverse = pyStripL cs
  rw [hstep]
  show ((pyStripL cs).reverse.dropWhile pyWs).reverse = pyStripL cs
  simp only [pyStripL, List.reverse_reverse]
  rw [dropWhile_of_headNeg _ (dropWhile_head_neg _)]

/-! ## Helper lemmas: the harmful-character filter -/

theorem removeHarmfulL_no_harm (cs : List Char) :
    ∀ c ∈ removeHarmfulL cs, harmfulChar c = false := by
  intro c hc
  have := List.of_mem_filter hc
  simpa using this

theorem removeHarmfulL_of_clean (cs : List Char)
    (h : ∀ c ∈ cs, harmfulChar c = false) : removeHarmfulL cs = cs := by
  apply List.filter_eq_self.mpr
  intro c hc
  simp [h c hc]

theorem removeHarmfulL_length_le (cs : List Char) :
    (removeHarmfulL cs).length ≤ cs.length :=
  List.length_filter_le _ cs

/-! ## Claim theorems: C8 (validation idempotence) -/

/-- C8, as stated, is false: `validate_research_query` strips the query
*before* removing the harmful characters, so removal can expose new edge
whitespace which the returned value keeps; re-validating then strips it.
On `"< hello >"` the first call returns `" hello "` and the second returns
`"hello"`. -/
theorem claim_C8_counterexample :
    validate_research_query "< hello >" 10000 = .ok " hello " ∧
      validate_research_query " hello " 10000 = .ok "hello" ∧
      (" hello " : String) ≠ "hello" :=
  ⟨rfl, rfl, by decide⟩

/-- C8 (corrected): validating an accepted query's result again succeeds
and returns that result with its leading/trailing whitespace stripped —
so validation is idempotent exactly on outputs that carry no edge
whitespace. -/
theorem claim_C8 (q r : String) (h : validate_research_query q 10000 = .ok r) :
    validate_research_query r 10000 = .ok (pyStrip r) := by
  simp only [validate_research_query] at h
  split at h
  · exact Except.noConfusion h
  split at h
  · exact Except.noConfusion h
  split at h
  · exact Except.noConfusion h
  split at h
  · exact Except.noConfusion h
  rename_i hq hlen0 hlenMax hshort
  obtain rfl : (⟨removeHarmfulL (pyStripL q.data)⟩ : String) = r := Except.ok.inj h
  set s : List Char := removeHarmfulL (pyStripL q.data) with hs
  have hclean : ∀ c ∈ s, harmfulChar c = false := removeHarmfulL_no_harm _
  have hstrip_clean : ∀ c ∈ pyStripL s, harmfulChar c = false :=
    fun c hc => hclean c (pyStripL_subset s c hc)
  have hge3 : 3 ≤ (pyStripL s).length := by omega
  have hslen : s.length ≤ 10000 := by
    have h1 : s.length ≤ (pyStripL q.data).length := removeHarmfulL_length_le _
    omega
  simp only [validate_research_query]
  rw [if_neg (by
    intro habs
    have hnil : s = [] := congrArg String.data habs
    rw [hnil] at hge3
    simp [pyStripL] at hge3)]
  show (if (pyStripL s).length = 0 then _ else _) = _
  rw [if_neg (by omega)]
  rw [if_neg (by
    have := pyStripL_length_le s
    omega)]
  rw [removeHarmfulL_of_clean _ hstrip_clean]
  rw [if_neg (by rw [pyStripL_idem]; omega)]
  rfl

/-- Witness for `claim_C8` at the concrete accepted query `"< hello >"`. -/
theorem claim_C8_witness :
    validate_research_query "< hello >" 10000 = .ok " hello " ∧
      validate_research_query " hello " 10000 = .ok (pyStrip " hello ") :=
  ⟨rfl, claim_C8 "< hello >" " hello " rfl⟩

/-! ## Claim theorems: C5 (throttling of the 0.0 / 0.3 / 0.31 / 1.0 run) -/

/-- C5, as stated, is false: the forwarding condition is
`progress_change >= min_progress_delta`, and the 0.31 call changes progress
by exactly the 0.01 delta, so it is forwarded, not suppressed.  The four
calls arrive 0.1 s apart (well inside the 0.5 s minimum interval), and all
four are forwarded. -/
theorem claim_C5_counterexample :
    runThrottled (1/2) (1/100) initThrottle
        [(1000, "m1", 0), (1000 + 1/10, "m2", 3/10),
         (1000 + 2/10, "m3", 31/100), (1000 + 3/10, "m4", 1)]
      = [("m1", 0), ("m2", 3/10), ("m3", 31/100), ("m4", 1)] ∧
    ("m3", (31 : ℚ)/100) ∈
      runThrottled (1/2) (1/100) initThrottle
        [(1000, "m1", 0), (1000 + 1/10, "m2", 3/10),
         (1000 + 2/10, "m3", 31/100), (1000 + 3/10, "m4", 1)] := by
  constructor
  · norm_num [runThrottled, throttled_call, initThrottle, abs]
  · norm_num [runThrottled, throttled_call, initThrottle, abs]

/-- C5 (corrected): in the 0.0 / 0.3 / 0.31 / 1.0 sequence all four calls
are forwarded, because the 0.31 call's progress change equals the minimum
delta and forwarding requires change `≥` delta; a call is suppressed only
when its change is strictly below the delta (and the interval has not
elapsed and the value is neither 0.0 nor ≥ 1.0) — replacing 0.31 by 0.305
suppresses it while 0.0, 0.3 and 1.0 are still forwarded. -/
theorem claim_C5 :
    ((31 : ℚ)/100 - 3/10 = 1/100) ∧
    runThrottled (1/2) (1/100) initThrottle
        [(1000, "m1", 0), (1000 + 1/10, "m2", 3/10),
         (1000 + 2/10, "m3", 31/100), (1000 + 3/10, "m4", 1)]
      = [("m1", 0), ("m2", 3/10), ("m3", 31/100), ("m4", 1)] ∧
    runThrottled (1/2) (1/100) initThrottle
        [(1000, "m1", 0), (1000 + 1/10, "m2", 3/10),
         (1000 + 2/10, "m3", 61/200), (1000 + 3/10, "m4", 1)]
      = [("m1", 0), ("m2", 3/10), ("m4", 1)] := by
  refine ⟨by norm_num, ?_, ?_⟩
  · norm_num [runThrottled, throttled_call, initThrottle, abs]
  · norm_num [runThrottled, throttled_call, initThrottle, abs]

/-! ## Claim theorems: C6 (clamping location) -/

/-- C6, as stated, is false: `ThrottledProgressCallback.__call__` never
clamps — called with progress 2.5 it makes its throttling decision on 2.5
and forwards 2.5, a value outside `[0, 1]`. -/
theorem claim_C6_counterexample :
    throttled_call (1/2) (1/100) initThrottle 1000 "m" (5/2)
      = (some ("m", 5/2), ⟨1000, 5/2⟩) ∧ ¬((5 : ℚ)/2 ≤ 1) := by
  constructor
  · norm_num [throttled_call, initThrottle, abs]
  · norm_num

/-- C6 (corrected): the throttling decorator forwards the progress value
unchanged (clamping nothing); the clamp into `[0, 1]` is applied by the
session-updating callback built in `ProgressCallbackHandler.create_callback`,
whose stored progress always lies in `[0, 1]` and agrees with the input on
in-range values. -/
theorem claim_C6 :
    (∀ (minI minD : ℚ) (st : ThrottleState) (t : ℚ) (msg : String) (p : ℚ),
       (throttled_call minI minD st t msg p).1 = some (msg, p) ∨
         (throttled_call minI minD st t msg p).1 = none) ∧
    (∀ (msg : String) (p : ℚ),
       0 ≤ (handler_progress_callback msg p).progress ∧
       (handler_progress_callback msg p).progress ≤ 1 ∧
       (0 ≤ p ∧ p ≤ 1 → (handler_progress_callback msg p).progress = p)) := by
  constructor
  · intro minI minD st t msg p
    simp only [throttled_call]
    split
    · exact .inl rfl
    · exact .inr rfl
  · intro msg p
    refine ⟨le_max_left 0 _, ?_, ?_⟩
    · simp only [handler_progress_callback]
      exact max_le (by norm_num) (min_le_left 1 p)
    · rintro ⟨h0, h1⟩
      simp only [handler_progress_callback]
      rw [min_eq_right h1, max_eq_right h0]

/-- Witness for `claim_C6` at the in-range progress value 1/2. -/
theorem claim_C6_witness :
    ((0 ≤ (1 : ℚ)/2 ∧ (1 : ℚ)/2 ≤ 1) ∧
      (handler_progress_callback "working" (1/2)).progress = 1/2) :=
  ⟨⟨by norm_num, by norm_num⟩,
    (claim_C6.2 "working" (1/2)).2.2 ⟨by norm_num, by norm_num⟩⟩

/-! ## Claim theorems: C9 (nested sanitisation) -/

/-- C9 is a bug in the code: `_sanitize_nested_structure`'s docstring says
"Recursively sanitize nested data structures", and `sanitize_log_entry`'s
comment says "Recursively sanitize nested structures", but the function
never calls itself — a dict (or list) value *inside* a nested dict is
returned verbatim.  At the failing input
`{"a": {"b": {"c": "<x>"}}}` the depth-2 string `"<x>"` comes back
unescaped, although `sanitize_html_output` would rewrite it to
`"&lt;x&gt;"`; nested strings are also never length-truncated. -/
theorem claim_C9 :
    sanitize_log_entry [("a", .jobj [("b", .jobj [("c", .jstr "<x>")])])]
        = [("a", .jobj [("b", .jobj [("c", .jstr "<x>")])])] ∧
      sanitize_html_output "<x>" = "&lt;x&gt;" ∧
      ("<x>" : String) ≠ "&lt;x&gt;" :=
  ⟨rfl, rfl, by decide⟩

/-! ## Helper lemmas: the extraction loop invariant -/

theorem create_citation_index (m : MatchRec) (idx : Nat) (c : CitationRec)
    (h : create_citation_from_match m idx = .ok c) : c.index = idx := by
  simp only [create_citation_from_match] at h
  split at h <;>
    first
    | exact Except.noConfusion h
    | (split at h
       · exact congrArg CitationRec.index (Except.ok.inj h).symm ▸ rfl
       · exact Except.noConfusion h)

theorem not_duplicate_distinct (c : CitationRec) (l : List CitationRec)
    (h : is_duplicate_citation c l = false) : ∀ e ∈ l, citDistinct e c := by
  intro e he
  simp only [is_duplicate_citation, List.any_eq_false] at h
  have he2 := h e he
  simp only [Bool.or_eq_true, decide_eq_true_eq, not_or] at he2
  obtain ⟨h1, h2⟩ := he2
  exact ⟨fun hu => h1 hu.symm, fun ht => h2 ht.symm⟩

theorem extractStep_inv (maxCitations : Nat) (m : MatchRec)
    (st : List CitationRec × Nat) (hinv : extractInv maxCitations st)
    (hlt : st.1.length < maxCitations) :
    extractInv maxCitations (extractStep m st) := by
  obtain ⟨hidx, hmap, _, hpair⟩ := hinv
  simp only [extractStep]
  split
  · rename_i c hc
    split
    · exact ⟨hidx, hmap, by omega, hpair⟩
    · rename_i hdup
      refine ⟨by simp only [List.length_append, List.length_cons, List.length_nil, hidx],
        ?_, by simp only [List.length_append, List.length_cons, List.length_nil]; omega, ?_⟩
      · have hcidx : c.index = st.2 := create_citation_index m st.2 c hc
        simp only [List.map_append, List.map_cons, List.map_nil, hmap,
          List.length_append, List.length_cons, List.length_nil]
        rw [hcidx, hidx]
        rw [show st.1.length + (0 + 1) = st.1.length + 1 from by omega,
          List.range'_concat]
        simp
        omega
      · rw [List.pairwise_append]
        refine ⟨hpair, List.pairwise_singleton _ _, ?_⟩
        intro a ha b hb
        rw [List.mem_singleton] at hb
        rw [hb]
        exact not_duplicate_distinct c st.1 (Bool.not_eq_true _ ▸ hdup) a ha
  · exact ⟨hidx, hmap, by omega, hpair⟩

theorem extractInner_inv (maxCitations : Nat) (ms : List MatchRec) :
    ∀ st, extractInv maxCitations st →
      extractInv maxCitations (extractInner maxCitations ms st) := by
  induction ms with
  | nil => intro st h; exact h
  | cons m rest ih =>
    intro st h
    simp only [extractInner]
    split
    · exact h
    · rename_i hge
      exact ih _ (extractStep_inv maxCitations m st h (by omega))

theorem extractOuter_inv (maxCitations : Nat) (pats : List (List MatchRec)) :
    ∀ st, extractInv maxCitations st →
      extractInv maxCitations (extractOuter maxCitations pats st) := by
  induction pats with
  | nil => intro st h; exact h
  | cons ms rest ih =>
    intro st h
    simp only [extractOuter]
    have h1 := extractInner_inv maxCitations ms st h
    split
    · exact h1
    · exact ih _ h1

theorem extract_citations_inv (maxCitations : Nat)
    (finditer : Nat → String → List MatchRec) (input : PyInput) :
    extractInv maxCitations (extract_citations maxCitations finditer input,
      (extract_citations maxCitations finditer input).length + 1) := by
  have hinit : extractInv maxCitations ([], 1) :=
    ⟨rfl, rfl, Nat.zero_le _, List.Pairwise.nil⟩
  simp only [extract_citations]
  split
  · rename_i s
    split
    · exact ⟨rfl, rfl, Nat.zero_le _, List.Pairwise.nil⟩
    · have h := extractOuter_inv maxCitations
        ((List.range 5).map (fun i => finditer i (sanitize_html_output s))) ([], 1) hinit
      obtain ⟨h1, h2, h3, h4⟩ := h
      exact ⟨rfl, h2, h3, h4⟩
  · exact ⟨rfl, rfl, Nat.zero_le _, List.Pairwise.nil⟩

/-! ## Claim theorems: C10 (extraction totality, cap and index shape) -/

/-- C10: `extract_citations` never raises (it is modelled by a total
function whose outer `try` returns `[]`), returns at most `max_citations`
records, numbers them exactly `1, 2, ..., n` in list order (so indices are
unique and strictly ascending), and returns `[]` on `None`, non-string and
empty-string input. -/
theorem claim_C10 (maxCitations : Nat) (finditer : Nat → String → List MatchRec)
    (input : PyInput) :
    (extract_citations maxCitations finditer input).length ≤ maxCitations ∧
    (extract_citations maxCitations finditer input).map CitationRec.index
      = List.range' 1 (extract_citations maxCitations finditer input).length ∧
    extract_citations maxCitations finditer .pynone = [] ∧
    extract_citations maxCitations finditer .pyother = [] ∧
    extract_citations maxCitations finditer (.pystr "") = [] := by
  obtain ⟨_, hmap, hlen, _⟩ := extract_citations_inv maxCitations finditer input
  exact ⟨hlen, hmap, rfl, rfl, by simp [extract_citations]⟩

/-! ## Claim theorems: C7 (duplicate suppression) -/

/-- C7: any two citations in an extraction result differ in URL and in
case-insensitive title (a later candidate matching an accepted one on
either is dropped, so only the first is retained); in particular two
accepted candidates with identical URLs and different titles yield exactly
one citation — the first. -/
theorem claim_C7 (maxCitations : Nat) (finditer : Nat → String → List MatchRec)
    (input : PyInput) :
    (extract_citations maxCitations finditer input).Pairwise citDistinct ∧
    extract_citations 50
        (fun i _ => if i = 0 then
          [⟨["1", "T one", "http://a.com/x"], "ctx string", 0, 5⟩,
           ⟨["2", "T two", "http://a.com/x"], "ctx string", 0, 5⟩] else [])
        (.pystr "Sources cited below.")
      = [⟨"T one", "http://a.com/x", "ctx string", 1⟩] := by
  obtain ⟨_, _, _, hpair⟩ := extract_citations_inv maxCitations finditer input
  exact ⟨hpair, rfl⟩

/-! ## Helper lemmas: superscript consolidation (pass 2) -/

theorem matchLit_self : ∀ (pat rest : List Char), matchLit pat (pat ++ rest) = some rest := by
  intro pat
  induction pat with
  | nil => intro rest; rfl
  | cons p ps ih => intro rest; simp [matchLit, ih]

theorem matchSupTag_tag (n : Nat) (rest : List Char) :
    matchSupTag (supTagL n ++ rest) = some (natDigits n, rest) := by
  have hshape : supTagL n ++ rest
      = "<sup>".data ++ (natDigits n ++ ("</sup>".data ++ rest)) := by
    simp [supTagL]
  have hml : matchLit "<sup>".data (supTagL n ++ rest)
      = some (natDigits n ++ ("</sup>".data ++ rest)) := by
    rw [hshape]; exact matchLit_self _ _
  have hnotdig : headNotDigit ("</sup>".data ++ rest) = true := rfl
  have htake := takeWhile_digits (natDigits n) ("</sup>".data ++ rest)
    (natDigits_all_digits n) hnotdig
  obtain ⟨d0, ds0, hnd⟩ := List.exists_cons_of_ne_nil (natDigits_ne_nil n)
  rw [hnd] at htake
  simp only [matchSupTag, hml, hnd, htake.1, htake.2, matchLit_self]

set_option maxRecDepth 4000 in
theorem supSepTag_tag (w1 : Nat) (comma : Bool) (w2 : Nat) (m : Nat) (rest : List Char) :
    supSepTag (sepChars w1 comma w2 ++ supTagL m ++ rest) = some (natDigits m, rest) := by
  have hsp : ∀ k, ∀ c ∈ List.replicate k ' ', pyWs c = true := by
    intro k c hc
    rw [List.eq_of_mem_replicate hc]
    decide
  have hconsTag : supTagL m ++ rest
      = '<' :: ("sup>".data ++ natDigits m ++ "</sup>".data ++ rest) := by
    simp [supTagL]
  have htag : (supTagL m ++ rest).dropWhile pyWs = supTagL m ++ rest := by
    rw [hconsTag]
    exact dropWhile_cons_of_neg _ rfl
  cases comma with
  | true =>
    have hdrop : (sepChars w1 true w2 ++ supTagL m ++ rest).dropWhile pyWs
        = ',' :: (List.replicate w2 ' ' ++ (supTagL m ++ rest)) := by
      have hshape : sepChars w1 true w2 ++ supTagL m ++ rest
          = List.replicate w1 ' ' ++ (',' :: (List.replicate w2 ' ' ++ (supTagL m ++ rest))) := by
        simp [sepChars]
      rw [hshape, dropWhile_append_of_pred _ _ (hsp w1)]
      exact dropWhile_cons_of_neg _ rfl
    simp only [supSepTag, hdrop, if_true]
    rw [dropWhile_append_of_pred _ _ (hsp w2), htag, matchSupTag_tag]
  | false =>
    have hdrop : (sepChars w1 false w2 ++ supTagL m ++ rest).dropWhile pyWs
        = '<' :: ("sup>".data ++ natDigits m ++ "</sup>".data ++ rest) := by
      have hshape : sepChars w1 false w2 ++ supTagL m ++ rest
          = List.replicate w1 ' ' ++ (List.replicate w2 ' ' ++ (supTagL m ++ rest)) := by
        simp only [sepChars, if_neg Bool.false_ne_true, List.append_nil, List.append_assoc]
      rw [hshape, dropWhile_append_of_pred _ _ (hsp w1),
        dropWhile_append_of_pred _ _ (hsp w2), htag, hconsTag]
    simp only [supSepTag, hdrop]
    rw [if_neg (show ¬(('<' : Char) = ',') by decide), ← hconsTag, matchSupTag_tag]

theorem supSepTag_nil : supSepTag [] = none := rfl

theorem runTagsAux_runTail (w1 : Nat) (comma : Bool) (w2 : Nat) :
    ∀ (ms : List Nat) (fuel : Nat) (acc : List Nat), ms.length ≤ fuel →
      runTagsAux fuel acc (runTail w1 comma w2 ms) = (acc ++ ms, []) := by
  intro ms
  induction ms with
  | nil =>
    intro fuel acc _
    cases fuel with
    | zero => simp [runTagsAux, runTail]
    | succ f => simp [runTagsAux, runTail, supSepTag, matchSupTag, matchLit]
  | cons m ms' ih =>
    intro fuel acc hfuel
    match fuel, hfuel with
    | f + 1, hfuel =>
      have hshape : runTail w1 comma w2 (m :: ms')
          = sepChars w1 comma w2 ++ supTagL m ++ runTail w1 comma w2 ms' := by
        simp [runTail]
      rw [hshape]
      simp only [runTagsAux, supSepTag_tag]
      rw [digitsToNat_natDigits, ih f (acc ++ [m]) (by simpa using Nat.lt_succ_iff.mp hfuel)]
      simp

theorem supTagL_length (n : Nat) : 12 ≤ (supTagL n).length := by
  have h := natDigits_ne_nil n
  have h1 : 1 ≤ (natDigits n).length := by
    rcases hnd : natDigits n with _ | _
    · exact absurd hnd h
    · simp
  simp only [supTagL, List.length_append, List.length_cons, List.length_nil]
  omega

theorem runTail_length (w1 : Nat) (comma : Bool) (w2 : Nat) :
    ∀ ms : List Nat, ms.length ≤ (runTail w1 comma w2 ms).length := by
  intro ms
  induction ms with
  | nil => simp [runTail]
  | cons m ms' ih =>
    simp only [runTail, List.length_append, List.length_cons]
    have := supTagL_length m
    omega

theorem consolidate_join (ns : List Nat) :
    consolidate ns = "<sup>".data ++ joinComma (sortedDedup ns) ++ "</sup>".data := by
  simp only [consolidate]
  split <;> rfl

theorem pass2Aux_nil (fuel : Nat) : pass2Aux fuel [] = [] := by
  cases fuel <;> rfl

theorem pass2Aux_run (w1 : Nat) (comma : Bool) (w2 : Nat) (n m : Nat) (ns : List Nat)
    (fuel : Nat) (hfuel : ns.length + 1 ≤ fuel) :
    pass2Aux fuel (supRun w1 comma w2 (n :: m :: ns))
      = "<sup>".data ++ joinComma (sortedDedup (n :: m :: ns)) ++ "</sup>".data := by
  match fuel, hfuel with
  | f + 1, hfuel =>
    have hcons : supRun w1 comma w2 (n :: m :: ns)
        = '<' :: ("sup>".data ++ natDigits n ++ "</sup>".data
            ++ (sepChars w1 comma w2 ++ supTagL m ++ runTail w1 comma w2 ns)) := by
      simp [supRun, runTail, supTagL]
    have hm1 : matchSupTag ('<' :: ("sup>".data ++ natDigits n ++ "</sup>".data
          ++ (sepChars w1 comma w2 ++ supTagL m ++ runTail w1 comma w2 ns)))
        = some (natDigits n,
            sepChars w1 comma w2 ++ supTagL m ++ runTail w1 comma w2 ns) := by
      have htag : '<' :: ("sup>".data ++ natDigits n ++ "</sup>".data
            ++ (sepChars w1 comma w2 ++ supTagL m ++ runTail w1 comma w2 ns))
          = supTagL n ++ (sepChars w1 comma w2 ++ supTagL m ++ runTail w1 comma w2 ns) := by
        simp [supTagL]
      rw [htag, matchSupTag_tag]
    have hm2 : supSepTag (sepChars w1 comma w2 ++ supTagL m ++ runTail w1 comma w2 ns)
        = some (natDigits m, runTail w1 comma w2 ns) := supSepTag_tag w1 comma w2 m _
    have hrun := runTagsAux_runTail w1 comma w2 ns f
      [digitsToNat (natDigits n), digitsToNat (natDigits m)] (by omega)
    rw [hcons]
    simp only [pass2Aux, hm1, hm2, hrun]
    simp only [digitsToNat_natDigits]
    rw [pass2Aux_nil, consolidate_join]
    simp

theorem pass2_run (w1 : Nat) (comma : Bool) (w2 : Nat) (n m : Nat) (ns : List Nat) :
    pass2 (supRun w1 comma w2 (n :: m :: ns))
      = "<sup>".data ++ joinComma (sortedDedup (n :: m :: ns)) ++ "</sup>".data := by
  have h1 : supRun w1 comma w2 (n :: m :: ns)
      = supTagL n ++ runTail w1 comma w2 (m :: ns) := by simp [supRun]
  have h2 := runTail_length w1 comma w2 (m :: ns)
  have h3 := supTagL_length n
  refine pass2Aux_run w1 comma w2 n m ns _ ?_
  rw [h1]
  simp only [List.length_append, List.length_cons] at h2 ⊢
  omega

/-! ## Helper lemmas: `sorted(set(...))` -/

theorem insertSorted_mem (n : Nat) : ∀ (l : List Nat) (a : Nat),
    a ∈ insertSorted n l ↔ a = n ∨ a ∈ l := by
  intro l
  induction l with
  | nil => intro a; simp [insertSorted]
  | cons m ms ih =>
    intro a
    simp only [insertSorted]
    split
    · simp
    · split
      · rename_i hlt heq
        subst heq
        simp only [List.mem_cons]
        constructor
        · intro h; exact .inr h
        · rintro (rfl | h)
          · simp
          · exact h
      · simp only [List.mem_cons, ih]
        tauto

theorem insertSorted_sorted (n : Nat) : ∀ (l : List Nat),
    l.Sorted (· < ·) → (insertSorted n l).Sorted (· < ·) := by
  intro l
  induction l with
  | nil => intro _; simp [insertSorted]
  | cons m ms ih =>
    intro hs
    rw [List.sorted_cons] at hs
    obtain ⟨hm, hms⟩ := hs
    simp only [insertSorted]
    split
    · rename_i hlt
      rw [List.sorted_cons]
      refine ⟨?_, List.sorted_cons.mpr ⟨hm, hms⟩⟩
      intro b hb
      rcases List.mem_cons.mp hb with rfl | hb
      · exact hlt
      · exact lt_trans hlt (hm b hb)
    · split
      · rename_i heq
        exact List.sorted_cons.mpr ⟨hm, hms⟩
      · rename_i hlt heq
        rw [List.sorted_cons]
        refine ⟨?_, ih hms⟩
        intro b hb
        rcases (insertSorted_mem n ms b).mp hb with rfl | hb
        · omega
        · exact hm b hb

theorem sortedDedup_sorted (ns : List Nat) : (sortedDedup ns).Sorted (· < ·) := by
  induction ns with
  | nil => simp [sortedDedup]
  | cons n ms ih => exact insertSorted_sorted n _ ih

theorem sortedDedup_mem (ns : List Nat) : ∀ a, a ∈ sortedDedup ns ↔ a ∈ ns := by
  induction ns with
  | nil => intro a; simp [sortedDedup]
  | cons n ms ih =>
    intro a
    show a ∈ insertSorted n (sortedDedup ms) ↔ _
    rw [insertSorted_mem, ih]
    simp

/-! ## Claim theorems: C2 (superscript consolidation) -/

/-- C2: pass 2 of `convert_citations_to_superscript` rewrites any run of
two-or-more adjacent superscript tags — whatever `\s*,?\s*` separator shape
and whatever indices — into a single tag carrying the comma-joined
`sorted(set(...))` of the indices, which is strictly ascending and contains
exactly the run's indices; in particular the 5, 4, 5 marker input of the
spec renders as one `4,5` tag. -/
theorem claim_C2 :
    (∀ (w1 : Nat) (comma : Bool) (w2 : Nat) (n m : Nat) (ns : List Nat),
       pass2 (supRun w1 comma w2 (n :: m :: ns))
         = "<sup>".data ++ joinComma (sortedDedup (n :: m :: ns)) ++ "</sup>".data) ∧
    (∀ ns : List Nat, (sortedDedup ns).Sorted (· < ·)) ∧
    (∀ (ns : List Nat) (a : Nat), a ∈ sortedDedup ns ↔ a ∈ ns) ∧
    convert_citations_to_superscript
        "Result 【12:5†source】, 【12:4†source】,【12:5†source】 end"
      = "Result <sup>4,5</sup> end" :=
  ⟨pass2_run, sortedDedup_sorted, sortedDedup_mem, by decide⟩

/-! ## Helper lemmas: the orchestrator's `try` body -/

/-- Every `return` inside the `try` block of `_conduct_research_sync`
builds a success result: a normally-returned result carries
`success=True`. -/
theorem conduct_try_ok (env : ResearchEnv) (finditer : Nat → String → List MatchRec)
    (req : ResearchRequest) (cb : Cb) (r : ResearchResult)
    (h : conduct_try env finditer req cb = .ok r) : r.success = true := by
  simp only [conduct_try] at h
  repeat' split at h
  all_goals first
    | exact Except.noConfusion h
    | (obtain rfl := Except.ok.inj h; rfl)

/-- A string does not extend another whose characters it does not start
with: witnessed by one position where they already differ. -/
theorem string_ne_extension (a b x : String) (i : Nat)
    (h : ∃ ca cb, a.data.get? i = some ca ∧ b.data.get? i = some cb ∧ ca ≠ cb) :
    a ≠ b ++ x := by
  obtain ⟨ca, cbchar, hca, hcb, hne⟩ := h
  intro heq
  have hd : a.data = b.data ++ x.data := by
    rw [heq]; exact String.data_append b x
  apply hne
  have hi : i < b.data.length := by
    by_contra hge
    rw [List.get?_eq_none.mpr (by omega)] at hcb
    exact Option.noConfusion hcb
  have : a.data.get? i = b.data.get? i := by
    rw [hd, List.get?_append hi]
  rw [hca, hcb] at this
  exact Option.some.inj this

/-! ## Claim theorems: C4 (budget exhaustion is a distinct failure kind) -/

/-- C4: with `max_iterations = 3` and a remote run that never reaches a
terminal state, `_execute_research` fails with the budget-exceeded kind
(`Research did not complete within 3 iterations`), the orchestrator
converts it into a `success=False` result carrying that message, and this
kind is distinguishable — as a constructor and as a rendered message — from
the terminal-failure kind raised when the run ends
`failed`/`cancelled`/`expired`. -/
theorem claim_C4 :
    execInner envPoll cbNone 3 = .error (.budgetExceeded 3) ∧
    (∃ r, conduct_research_sync envPoll noMatches ⟨"test topic", 3, true⟩ cbNone = .ok r ∧
       r.success = false ∧
       r.errorMessage = some
         "Research failed: Failed to execute research: Research did not complete within 3 iterations") ∧
    (∀ status lastError : String, ExecFailure.budgetExceeded 3 ≠ .runTerminal status lastError) ∧
    (∀ le : String,
       ("Research failed: Failed to execute research: Research did not complete within 3 iterations" : String)
         ≠ "Research failed: Failed to execute research: Research run failed: " ++ le) ∧
    (∀ le : String,
       ("Research failed: Failed to execute research: Research did not complete within 3 iterations" : String)
         ≠ "Research failed: Failed to execute research: Research run cancelled: " ++ le) ∧
    (∀ le : String,
       ("Research failed: Failed to execute research: Research did not complete within 3 iterations" : String)
         ≠ "Research failed: Failed to execute research: Research run expired: " ++ le) := by
  refine ⟨rfl, ⟨_, rfl, rfl, rfl⟩, fun _ _ => by simp, ?_, ?_, ?_⟩ <;>
    (intro le
     exact string_ne_extension _ _ le 54 ⟨'d', 'r', by decide, by decide, by decide⟩)

/-! ## Claim theorems: C1 (failures become results, not exceptions) -/

/-- C1, as stated over *every* progress callback, is false: a callback
that raises inside the `except` handler's failure report propagates out of
`_conduct_research_sync`.  Concretely, a callback raising on every call
turns an otherwise-handled failure into a raised exception. -/
theorem claim_C1_counterexample :
    conduct_research_sync envPoll noMatches ⟨"test topic", 3, true⟩ cbRaise
      = .error "ui crashed" := rfl

/-- C1 (corrected): for every remote environment and every progress
callback that does not raise, `_conduct_research_sync` returns a result
rather than raising, and any failure result carries `success=False`
together with a non-null error message. -/
theorem claim_C1 (env : ResearchEnv) (finditer : Nat → String → List MatchRec)
    (req : ResearchRequest) (cb : Cb) (hcb : ∀ m p, cb m p = none) :
    ∃ r, conduct_research_sync env finditer req cb = .ok r ∧
      (r.success = false → r.errorMessage ≠ none) := by
  unfold conduct_research_sync
  cases h : conduct_try env finditer req cb with
  | ok r =>
    refine ⟨r, rfl, fun hfalse => ?_⟩
    have := conduct_try_ok env finditer req cb r h
    rw [hfalse] at this
    exact Bool.noConfusion this
  | error e =>
    simp only [hcb]
    exact ⟨_, rfl, fun _ => by simp⟩

/-- Witness for `claim_C1`: the never-terminal environment with the silent
callback — the run fails on budget, and the orchestrator hands back a
`success=False` result instead of raising. -/
theorem claim_C1_witness :
    (∀ m p, cbNone m p = none) ∧
      ∃ r, conduct_research_sync envPoll noMatches ⟨"test topic", 3, true⟩ cbNone = .ok r ∧
        (r.success = false → r.errorMessage ≠ none) :=
  ⟨fun _ _ => rfl,
    claim_C1 envPoll noMatches ⟨"test topic", 3, true⟩ cbNone (fun _ _ => rfl)⟩

/-! ## Helper lemmas: JSON string escaping round-trip -/

theorem hexValC_hexDigit {k : Nat} (h : k < 16) : hexValC (hexDigit k) = some k := by
  interval_cases k <;> decide

theorem parseStrBody_escChar (c : Char) (acc t : List Char) :
    parseStrBody acc (jsonEscapeChar c ++ t) = parseStrBody (c :: acc) t := by
  by_cases h1 : c = '"'
  · subst h1
    rw [show jsonEscapeChar '"' ++ t = '\\' :: '"' :: t from rfl, parseStrBody.eq_def]
    simp [jsonUnescape]
  by_cases h2 : c = '\\'
  · subst h2
    rw [show jsonEscapeChar '\\' ++ t = '\\' :: '\\' :: t from rfl, parseStrBody.eq_def]
    simp [jsonUnescape]
  by_cases h3 : c = '\n'
  · subst h3
    rw [show jsonEscapeChar '\n' ++ t = '\\' :: 'n' :: t from rfl, parseStrBody.eq_def]
    simp [jsonUnescape]
  by_cases h4 : c = '\t'
  · subst h4
    rw [show jsonEscapeChar '\t' ++ t = '\\' :: 't' :: t from rfl, parseStrBody.eq_def]
    simp [jsonUnescape]
  by_cases h5 : c = '\r'
  · subst h5
    rw [show jsonEscapeChar '\r' ++ t = '\\' :: 'r' :: t from rfl, parseStrBody.eq_def]
    simp [jsonUnescape]
  by_cases h6 : c = '\x08'
  · subst h6
    rw [show jsonEscapeChar '\x08' ++ t = '\\' :: 'b' :: t from rfl, parseStrBody.eq_def]
    simp [jsonUnescape]
  by_cases h7 : c = '\x0c'
  · subst h7
    rw [show jsonEscapeChar '\x0c' ++ t = '\\' :: 'f' :: t from rfl, parseStrBody.eq_def]
    simp [jsonUnescape]
  by_cases h8 : c.toNat < 0x20
  · have hesc : jsonEscapeChar c ++ t
        = '\\' :: 'u' :: '0' :: '0' :: hexDigit (c.toNat / 16) :: hexDigit (c.toNat % 16) :: t := by
      simp only [jsonEscapeChar, if_neg h1, if_neg h2, if_neg h3, if_neg h4, if_neg h5,
        if_neg h6, if_neg h7, if_pos h8]
      rfl
    have hdiv : c.toNat / 16 < 16 := by omega
    have hmod : c.toNat % 16 < 16 := Nat.mod_lt _ (by omega)
    have hchar : Char.ofNat (((0 * 16 + 0) * 16 + c.toNat / 16) * 16 + c.toNat % 16) = c := by
      have harith : ((0 * 16 + 0) * 16 + c.toNat / 16) * 16 + c.toNat % 16 = c.toNat := by
        omega
      rw [harith, Char.ofNat_toNat]
    rw [hesc, parseStrBody.eq_def]
    simp only [show hexValC ('0' : Char) = some 0 from rfl, hexValC_hexDigit hdiv,
      hexValC_hexDigit hmod, show (('\\' : Char) = '"') = False by simp,
      show (('\\' : Char) = '\\') = True by simp, show (('u' : Char) = 'u') = True by simp,
      if_true, if_false, ite_true, ite_false]
    rw [hchar]
  · have hesc : jsonEscapeChar c ++ t = c :: t := by
      simp only [jsonEscapeChar, if_neg h1, if_neg h2, if_neg h3, if_neg h4, if_neg h5,
        if_neg h6, if_neg h7, if_neg h8]
      rfl
    rw [hesc, parseStrBody.eq_def]
    simp [h1, h2]

theorem parseStrBody_flat : ∀ (cs acc rest : List Char),
    parseStrBody acc (cs.flatMap jsonEscapeChar ++ '"' :: rest)
      = some (⟨acc.reverse ++ cs⟩, rest) := by
  intro cs
  induction cs with
  | nil =>
    intro acc rest
    rw [List.flatMap_nil, List.nil_append, parseStrBody.eq_def]
    simp
  | cons c cs' ih =>
    intro acc rest
    rw [List.flatMap_cons, List.append_assoc, parseStrBody_escChar, ih (c :: acc)]
    simp

/-! ## Helper lemmas: integer literal round-trip -/

theorem parseIntL_int (n : Int) (rest : List Char) (hrest : headNotDigit rest = true) :
    parseIntL (intDigits n ++ rest) = some (n, rest) := by
  by_cases hn : n < 0
  · have hshape : intDigits n ++ rest = '-' :: (natDigits n.natAbs ++ rest) := by
      simp [intDigits, hn]
    rw [hshape]
    obtain ⟨d0, ds0, hnd⟩ := List.exists_cons_of_ne_nil (natDigits_ne_nil n.natAbs)
    have htake := takeWhile_digits (natDigits n.natAbs) rest (natDigits_all_digits _) hrest
    rw [hnd] at htake
    simp only [parseIntL, if_pos (show ('-' : Char) = '-' from rfl), hnd,
      htake.1, htake.2]
    have : digitsToNat (d0 :: ds0) = n.natAbs := by
      rw [← hnd]; exact digitsToNat_natDigits _
    rw [this]
    have : -(n.natAbs : Int) = n := by omega
    rw [this]
    simp
  · have hshape : intDigits n ++ rest = natDigits n.natAbs ++ rest := by
      simp [intDigits, hn]
    rw [hshape]
    obtain ⟨d0, ds0, hnd⟩ := List.exists_cons_of_ne_nil (natDigits_ne_nil n.natAbs)
    have hd0 : d0.isDigit = true := by
      apply natDigits_all_digits n.natAbs
      rw [hnd]; simp
    have htake := takeWhile_digits (natDigits n.natAbs) rest (natDigits_all_digits _) hrest
    rw [hnd] at htake
    rw [hnd]
    show parseIntL (d0 :: (ds0 ++ rest)) = some (n, rest)
    have hne : ¬(d0 = '-') := (digit_ne hd0).2.2.2.2.2.2.1
    simp only [parseIntL, if_neg hne]
    rw [show d0 :: (ds0 ++ rest) = (d0 :: ds0) ++ rest from rfl, htake.1, htake.2]
    show some ((digitsToNat (d0 :: ds0) : Int), rest) = some (n, rest)
    have : digitsToNat (d0 :: ds0) = n.natAbs := by
      rw [← hnd]; exact digitsToNat_natDigits _
    rw [this]
    have : (n.natAbs : Int) = n := by omega
    rw [this]

/-! ## JSON round-trip and atomic-write crash safety (C3) -/

theorem skipWS_cons_ws {c : Char} (t : List Char) (hc : jsonWs c = true) :
    skipWS (c :: t) = skipWS t := by
  simp [skipWS, List.dropWhile_cons, hc]

theorem jparse_ws (fuel : Nat) (pre z : List Char) (hpre : ∀ c ∈ pre, jsonWs c = true) :
    jparse fuel (pre ++ z) = jparse fuel z := by
  cases fuel with
  | zero => rfl
  | succ f =>
    simp only [jparse]
    rw [skipWS_append_ws pre z hpre]

theorem dumpVal_head (v : JValue) (d : Nat) :
    ∃ c t, dumpVal v d = c :: t ∧ jsonWs c = false ∧ c ≠ ']' := by
  cases v with
  | jnull => exact ⟨'n', ['u', 'l', 'l'], rfl, by decide, by decide⟩
  | jbool b =>
    cases b with
    | false => exact ⟨'f', ['a', 'l', 's', 'e'], rfl, by decide, by decide⟩
    | true => exact ⟨'t', ['r', 'u', 'e'], rfl, by decide, by decide⟩
  | jint n =>
    by_cases hn : n < 0
    · refine ⟨'-', natDigits n.natAbs, ?_, by decide, by decide⟩
      simp [dumpVal, intDigits, hn]
    · obtain ⟨d0, ds0, hnd⟩ := List.exists_cons_of_ne_nil (natDigits_ne_nil n.natAbs)
      have hd0 : d0.isDigit = true := by
        apply natDigits_all_digits n.natAbs
        rw [hnd]; simp
      refine ⟨d0, ds0, ?_, digit_not_jsonWs hd0, (digit_ne hd0).2.2.2.2.2.2.2.1⟩
      simp [dumpVal, intDigits, hn, hnd]
  | jstr s =>
    exact ⟨'"', s.data.flatMap jsonEscapeChar ++ ['"'], by simp [dumpVal, jsonStrL],
      by decide, by decide⟩
  | jarr xs =>
    cases xs with
    | nil => exact ⟨'[', [']'], rfl, by decide, by decide⟩
    | cons x xs =>
      refine ⟨'[', '\n' :: (nSpaces (d + 2) ++ dumpVal x (d + 2) ++ dumpSepItems xs (d + 2)
        ++ '\n' :: nSpaces d ++ [']']), ?_, by decide, by decide⟩
      simp [dumpVal, List.cons_append, List.append_assoc]
  | jobj fs =>
    cases fs with
    | nil => exact ⟨'{', ['}'], rfl, by decide, by decide⟩
    | cons f fs =>
      refine ⟨'{', '\n' :: (nSpaces (d + 2) ++ jsonStrL f.1 ++ ':' :: ' ' :: dumpVal f.2 (d + 2)
        ++ dumpSepFields fs (d + 2) ++ '\n' :: nSpaces d ++ ['}']), ?_, by decide, by decide⟩
      simp [dumpVal, List.cons_append, List.append_assoc]

theorem headNotDigit_sepItems (xs : List JValue) (d : Nat) (z : List Char) :
    headNotDigit (dumpSepItems xs d ++ '\n' :: z) = true := by
  cases xs with
  | nil => simp [dumpSepItems, headNotDigit, headNotP]
  | cons y ys => simp [dumpSepItems, headNotDigit, headNotP, List.cons_append]

theorem headNotDigit_sepFields (fs : List (String × JValue)) (d : Nat) (z : List Char) :
    headNotDigit (dumpSepFields fs d ++ '\n' :: z) = true := by
  cases fs with
  | nil => simp [dumpSepFields, headNotDigit, headNotP]
  | cons f fs' => simp [dumpSepFields, headNotDigit, headNotP, List.cons_append]


theorem jparse_dump : ∀ fuel : Nat,
    (∀ v d rest, (dumpVal v d).length < fuel → headNotDigit rest = true →
      jparse fuel (dumpVal v d ++ rest) = some (v, rest)) ∧
    (∀ x xs d pre rest, (∀ c ∈ pre, jsonWs c = true) →
      (dumpVal x (d + 2)).length + (dumpSepItems xs (d + 2)).length + 1 < fuel →
      jparseItems fuel
        (pre ++ (dumpVal x (d + 2) ++ (dumpSepItems xs (d + 2)
          ++ ('\n' :: (nSpaces d ++ (']' :: rest))))))
        = some (x :: xs, rest)) ∧
    (∀ k v fs d pre rest, (∀ c ∈ pre, jsonWs c = true) →
      (jsonStrL k).length + (dumpVal v (d + 2)).length
          + (dumpSepFields fs (d + 2)).length + 1 < fuel →
      jparseFields fuel
        (pre ++ (jsonStrL k ++ (':' :: (' ' :: (dumpVal v (d + 2)
          ++ (dumpSepFields fs (d + 2) ++ ('\n' :: (nSpaces d ++ ('}' :: rest)))))))))
        = some ((k, v) :: fs, rest)) := by
  intro fuel
  induction fuel with
  | zero =>
    exact ⟨fun _ _ _ h _ => absurd h (by omega),
      fun _ _ _ _ _ _ h => absurd h (by omega),
      fun _ _ _ _ _ _ _ h => absurd h (by omega)⟩
  | succ f ih =>
    obtain ⟨ih1, ih2, ih3⟩ := ih
    refine ⟨?_, ?_, ?_⟩
    · -- values
      intro v d rest hlen hrest
      cases v with
      | jnull =>
        have hml : matchLit "ull".data ('u' :: 'l' :: 'l' :: rest) = some rest :=
          matchLit_self "ull".data rest
        show jparse (f + 1) ('n' :: 'u' :: 'l' :: 'l' :: rest) = some (.jnull, rest)
        simp only [jparse]
        rw [skipWS_not_ws _ (by decide)]
        simp [hml]
      | jbool b =>
        cases b with
        | true =>
          have hml : matchLit "rue".data ('r' :: 'u' :: 'e' :: rest) = some rest :=
            matchLit_self "rue".data rest
          show jparse (f + 1) ('t' :: 'r' :: 'u' :: 'e' :: rest) = some (.jbool true, rest)
          simp only [jparse]
          rw [skipWS_not_ws _ (by decide)]
          simp [hml]
        | false =>
          have hml : matchLit "alse".data ('a' :: 'l' :: 's' :: 'e' :: rest) = some rest :=
            matchLit_self "alse".data rest
          show jparse (f + 1) ('f' :: 'a' :: 'l' :: 's' :: 'e' :: rest) = some (.jbool false, rest)
          simp only [jparse]
          rw [skipWS_not_ws _ (by decide)]
          simp [hml]
      | jint n =>
        by_cases hn : n < 0
        · have hshape : dumpVal (.jint n) d ++ rest = '-' :: (natDigits n.natAbs ++ rest) := by
            simp [dumpVal, intDigits, hn]
          have hp : parseIntL ('-' :: (natDigits n.natAbs ++ rest)) = some (n, rest) := by
            have h2 : intDigits n ++ rest = '-' :: (natDigits n.natAbs ++ rest) := by
              simp [intDigits, hn]
            rw [← h2]
            exact parseIntL_int n rest hrest
          rw [hshape]
          simp only [jparse]
          rw [skipWS_not_ws _ (by decide)]
          simp [hp]
        · obtain ⟨d0, ds0, hnd⟩ := List.exists_cons_of_ne_nil (natDigits_ne_nil n.natAbs)
          have hd0 : d0.isDigit = true := by
            apply natDigits_all_digits n.natAbs
            rw [hnd]; simp
          obtain ⟨hn1, ht1, hf1, hq1, hb1, hc1, hm1, hr1, hx1, hl1, hk1⟩ := digit_ne hd0
          have hshape : dumpVal (.jint n) d ++ rest = d0 :: (ds0 ++ rest) := by
            simp [dumpVal, intDigits, hn, hnd]
          have hp : parseIntL (d0 :: (ds0 ++ rest)) = some (n, rest) := by
            have h2 : intDigits n ++ rest = d0 :: (ds0 ++ rest) := by
              simp [intDigits, hn, hnd]
            rw [← h2]
            exact parseIntL_int n rest hrest
          rw [hshape]
          simp only [jparse]
          rw [skipWS_not_ws _ (digit_not_jsonWs hd0)]
          simp [hn1, ht1, hf1, hq1, hb1, hc1, hp]
      | jstr s =>
        have hshape : dumpVal (.jstr s) d ++ rest
            = '"' :: (s.data.flatMap jsonEscapeChar ++ '"' :: rest) := by
          simp [dumpVal, jsonStrL, List.cons_append, List.append_assoc]
        have hps : parseStrBody [] (s.data.flatMap jsonEscapeChar ++ '"' :: rest)
            = some (s, rest) := parseStrBody_flat s.data [] rest
        rw [hshape]
        simp only [jparse]
        rw [skipWS_not_ws _ (by decide)]
        simp [hps]
      | jarr xs =>
        cases xs with
        | nil =>
          show jparse (f + 1) ('[' :: ']' :: rest) = some (.jarr [], rest)
          simp only [jparse]
          rw [skipWS_not_ws _ (by decide)]
          simp [skipWS_not_ws rest (show jsonWs ']' = false by decide)]
        | cons x xs =>
          have hshape : dumpVal (.jarr (x :: xs)) d ++ rest
              = '[' :: ('\n' :: (nSpaces (d + 2) ++ (dumpVal x (d + 2)
                ++ (dumpSepItems xs (d + 2) ++ ('\n' :: (nSpaces d ++ (']' :: rest))))))) := by
            simp [dumpVal, List.cons_append, List.append_assoc]
          obtain ⟨c0, t0, hct, hws0, hne0⟩ := dumpVal_head x (d + 2)
          have hsk : skipWS ('\n' :: (nSpaces (d + 2) ++ (dumpVal x (d + 2)
              ++ (dumpSepItems xs (d + 2) ++ ('\n' :: (nSpaces d ++ (']' :: rest)))))))
              = c0 :: (t0 ++ (dumpSepItems xs (d + 2)
                ++ ('\n' :: (nSpaces d ++ (']' :: rest))))) := by
            rw [skipWS_cons_ws _ (by decide), skipWS_append_ws _ _ (nSpaces_ws _), hct,
              List.cons_append]
            exact skipWS_not_ws _ hws0
          have hitems : jparseItems f (c0 :: (t0 ++ (dumpSepItems xs (d + 2)
              ++ ('\n' :: (nSpaces d ++ (']' :: rest))))))
              = some (x :: xs, rest) := by
            rw [← List.cons_append, ← hct]
            have hb2 : (dumpVal x (d + 2)).length + (dumpSepItems xs (d + 2)).length + 1 < f := by
              have hL : (dumpVal (.jarr (x :: xs)) d).length
                  = (dumpVal x (d + 2)).length + (dumpSepItems xs (d + 2)).length
                    + (2 * d + 6) := by
                simp [dumpVal, nSpaces, List.length_append]
                ring
              omega
            exact ih2 x xs d [] rest (by simp) hb2
          rw [hshape]
          simp only [jparse]
          rw [skipWS_not_ws _ (by decide)]
          simp [hsk, hne0, hitems]
      | jobj fs =>
        cases fs with
        | nil =>
          show jparse (f + 1) ('{' :: '}' :: rest) = some (.jobj [], rest)
          simp only [jparse]
          rw [skipWS_not_ws _ (by decide)]
          simp [skipWS_not_ws rest (show jsonWs '}' = false by decide)]
        | cons fkv fs =>
          obtain ⟨k, v⟩ := fkv
          have hshape : dumpVal (.jobj ((k, v) :: fs)) d ++ rest
              = '{' :: ('\n' :: (nSpaces (d + 2) ++ (jsonStrL k ++ (':' :: (' '
                :: (dumpVal v (d + 2) ++ (dumpSepFields fs (d + 2)
                  ++ ('\n' :: (nSpaces d ++ ('}' :: rest)))))))))) := by
            simp [dumpVal, List.cons_append, List.append_assoc]
          have hsk : skipWS ('\n' :: (nSpaces (d + 2) ++ (jsonStrL k ++ (':' :: (' '
              :: (dumpVal v (d + 2) ++ (dumpSepFields fs (d + 2)
                ++ ('\n' :: (nSpaces d ++ ('}' :: rest))))))))))
              = '"' :: ((k.data.flatMap jsonEscapeChar ++ ['"']) ++ (':' :: (' '
                :: (dumpVal v (d + 2) ++ (dumpSepFields fs (d + 2)
                  ++ ('\n' :: (nSpaces d ++ ('}' :: rest)))))))) := by
            rw [skipWS_cons_ws _ (by decide), skipWS_append_ws _ _ (nSpaces_ws _)]
            exact skipWS_not_ws _ (by decide)
          have hfields : jparseFields f ('"' :: ((k.data.flatMap jsonEscapeChar ++ ['"'])
              ++ (':' :: (' ' :: (dumpVal v (d + 2) ++ (dumpSepFields fs (d + 2)
                ++ ('\n' :: (nSpaces d ++ ('}' :: rest)))))))))
              = some ((k, v) :: fs, rest) := by
            have hb3 : (jsonStrL k).length + (dumpVal v (d + 2)).length
                + (dumpSepFields fs (d + 2)).length + 1 < f := by
              have hL : (dumpVal (.jobj ((k, v) :: fs)) d).length
                  = (jsonStrL k).length + (dumpVal v (d + 2)).length
                    + (dumpSepFields fs (d + 2)).length + (2 * d + 8) := by
                simp [dumpVal, nSpaces, List.length_append]
                ring
              omega
            exact ih3 k v fs d [] rest (by simp) hb3
          simp only [List.append_assoc, List.singleton_append] at hfields
          rw [hshape]
          simp only [jparse]
          rw [skipWS_not_ws _ (by decide)]
          simp [hsk, hfields]
    · -- array items
      intro x xs d pre rest hpre hb
      have hjp : jparse f (pre ++ (dumpVal x (d + 2) ++ (dumpSepItems xs (d + 2)
          ++ ('\n' :: (nSpaces d ++ (']' :: rest))))))
          = some (x, dumpSepItems xs (d + 2) ++ ('\n' :: (nSpaces d ++ (']' :: rest)))) := by
        rw [jparse_ws f pre _ hpre]
        exact ih1 x (d + 2) _ (by omega) (headNotDigit_sepItems xs (d + 2) _)
      simp only [jparseItems]
      simp only [hjp]
      cases xs with
      | nil =>
        have hsk : skipWS (dumpSepItems ([] : List JValue) (d + 2)
            ++ ('\n' :: (nSpaces d ++ (']' :: rest)))) = ']' :: rest := by
          rw [show dumpSepItems ([] : List JValue) (d + 2)
              ++ ('\n' :: (nSpaces d ++ (']' :: rest)))
              = '\n' :: (nSpaces d ++ (']' :: rest)) from rfl]
          rw [skipWS_cons_ws _ (by decide), skipWS_append_ws _ _ (nSpaces_ws _)]
          exact skipWS_not_ws _ (by decide)
        simp [hsk]
      | cons y ys =>
        have hT : dumpSepItems (y :: ys) (d + 2) ++ ('\n' :: (nSpaces d ++ (']' :: rest)))
            = ',' :: ('\n' :: (nSpaces (d + 2) ++ (dumpVal y (d + 2)
              ++ (dumpSepItems ys (d + 2) ++ ('\n' :: (nSpaces d ++ (']' :: rest))))))) := by
          simp [dumpSepItems, List.cons_append, List.append_assoc]
        have hrec : jparseItems f ('\n' :: (nSpaces (d + 2) ++ (dumpVal y (d + 2)
            ++ (dumpSepItems ys (d + 2) ++ ('\n' :: (nSpaces d ++ (']' :: rest)))))))
            = some (y :: ys, rest) := by
          have hds : (dumpSepItems (y :: ys) (d + 2)).length
              = (dumpVal y (d + 2)).length + (dumpSepItems ys (d + 2)).length + (d + 4) := by
            simp [dumpSepItems, nSpaces, List.length_append]
            ring
          have hb2 : (dumpVal y (d + 2)).length + (dumpSepItems ys (d + 2)).length + 1 < f := by
            omega
          have hpre2 : ∀ c ∈ '\n' :: nSpaces (d + 2), jsonWs c = true := by
            intro c hc
            rcases List.mem_cons.mp hc with rfl | h
            · decide
            · exact nSpaces_ws _ c h
          exact ih2 y ys d ('\n' :: nSpaces (d + 2)) rest hpre2 hb2
        rw [hT, skipWS_not_ws _ (by decide)]
        simp [hrec]
    · -- object fields
      intro k v fs d pre rest hpre hb
      have hsk : skipWS (pre ++ (jsonStrL k ++ (':' :: (' ' :: (dumpVal v (d + 2)
          ++ (dumpSepFields fs (d + 2) ++ ('\n' :: (nSpaces d ++ ('}' :: rest)))))))))
          = '"' :: ((k.data.flatMap jsonEscapeChar ++ ['"']) ++ (':' :: (' '
            :: (dumpVal v (d + 2) ++ (dumpSepFields fs (d + 2)
              ++ ('\n' :: (nSpaces d ++ ('}' :: rest)))))))) := by
        rw [skipWS_append_ws _ _ hpre]
        exact skipWS_not_ws _ (by decide)
      have hps : parseStrBody [] ((k.data.flatMap jsonEscapeChar ++ ['"']) ++ (':' :: (' '
          :: (dumpVal v (d + 2) ++ (dumpSepFields fs (d + 2)
            ++ ('\n' :: (nSpaces d ++ ('}' :: rest))))))))
          = some (k, ':' :: (' ' :: (dumpVal v (d + 2) ++ (dumpSepFields fs (d + 2)
            ++ ('\n' :: (nSpaces d ++ ('}' :: rest))))))) := by
        rw [List.append_assoc]
        exact parseStrBody_flat k.data [] _
      have hjv : jparse f (' ' :: (dumpVal v (d + 2) ++ (dumpSepFields fs (d + 2)
          ++ ('\n' :: (nSpaces d ++ ('}' :: rest))))))
          = some (v, dumpSepFields fs (d + 2) ++ ('\n' :: (nSpaces d ++ ('}' :: rest)))) := by
        rw [show (' ' :: (dumpVal v (d + 2) ++ (dumpSepFields fs (d + 2)
            ++ ('\n' :: (nSpaces d ++ ('}' :: rest))))))
            = [' '] ++ (dumpVal v (d + 2) ++ (dumpSepFields fs (d + 2)
              ++ ('\n' :: (nSpaces d ++ ('}' :: rest))))) from rfl]
        rw [jparse_ws f [' '] _ (by decide)]
        exact ih1 v (d + 2) _ (by omega) (headNotDigit_sepFields fs (d + 2) _)
      simp only [jparseFields]
      rw [hsk]
      simp only [hps]
      rw [skipWS_not_ws _ (show jsonWs ':' = false by decide)]
      simp only [hjv]
      cases fs with
      | nil =>
        have hsk2 : skipWS (dumpSepFields ([] : List (String × JValue)) (d + 2)
            ++ ('\n' :: (nSpaces d ++ ('}' :: rest)))) = '}' :: rest := by
          rw [show dumpSepFields ([] : List (String × JValue)) (d + 2)
              ++ ('\n' :: (nSpaces d ++ ('}' :: rest)))
              = '\n' :: (nSpaces d ++ ('}' :: rest)) from rfl]
          rw [skipWS_cons_ws _ (by decide), skipWS_append_ws _ _ (nSpaces_ws _)]
          exact skipWS_not_ws _ (by decide)
        simp [hsk2]
      | cons f2 fs' =>
        obtain ⟨k2, v2⟩ := f2
        have hT : dumpSepFields ((k2, v2) :: fs') (d + 2)
            ++ ('\n' :: (nSpaces d ++ ('}' :: rest)))
            = ',' :: ('\n' :: (nSpaces (d + 2) ++ (jsonStrL k2 ++ (':' :: (' '
              :: (dumpVal v2 (d + 2) ++ (dumpSepFields fs' (d + 2)
                ++ ('\n' :: (nSpaces d ++ ('}' :: rest)))))))))) := by
          simp [dumpSepFields, List.cons_append, List.append_assoc]
        have hrec : jparseFields f ('\n' :: (nSpaces (d + 2) ++ (jsonStrL k2 ++ (':' :: (' '
            :: (dumpVal v2 (d + 2) ++ (dumpSepFields fs' (d + 2)
              ++ ('\n' :: (nSpaces d ++ ('}' :: rest))))))))))
            = some ((k2, v2) :: fs', rest) := by
          have hds : (dumpSepFields ((k2, v2) :: fs') (d + 2)).length
              = (jsonStrL k2).length + (dumpVal v2 (d + 2)).length
                + (dumpSepFields fs' (d + 2)).length + (d + 6) := by
            simp [dumpSepFields, nSpaces, List.length_append]
            ring
          have hb2 : (jsonStrL k2).length + (dumpVal v2 (d + 2)).length
              + (dumpSepFields fs' (d + 2)).length + 1 < f := by
            omega
          have hpre2 : ∀ c ∈ '\n' :: nSpaces (d + 2), jsonWs c = true := by
            intro c hc
            rcases List.mem_cons.mp hc with rfl | h
            · decide
            · exact nSpaces_ws _ c h
          exact ih3 k2 v2 fs' d ('\n' :: nSpaces (d + 2)) rest hpre2 hb2
        rw [hT, skipWS_not_ws _ (by decide)]
        simp [hrec]


theorem json_load_dump (entry : List (String × JValue)) :
    json_load (jsonDump entry) = some (.jobj entry) := by
  have h1 := (jparse_dump ((dumpVal (.jobj entry) 0).length + 1)).1 (.jobj entry) 0 []
    (by omega) rfl
  rw [List.append_nil] at h1
  show (match jparse ((dumpVal (.jobj entry) 0).length + 1) (dumpVal (.jobj entry) 0) with
    | some (v, rest) => if skipWS rest = [] then some v else none
    | none => none) = some (.jobj entry)
  rw [h1]
  rfl

/-- Claim C3: with `atomic=True`, `write_json` serialises into a temporary
file and installs it with one rename; an interruption at any point before
the rename leaves the target path (file or absence) unchanged, and after a
successful write the target's content re-parses to the (sanitised) input
object. -/
theorem claim_C3 (fs : FS) (tmp target : String) (entry : List (String × JValue))
    (sanitize : Bool) (htmp : tmp ≠ target) :
    write_json_atomic fs tmp target entry sanitize
      = renameFile (setFile (setFile fs tmp "") tmp
          (jsonDump (write_json_data entry sanitize))) tmp target ∧
    (∀ fs', interruptedBeforeRename fs tmp (jsonDump (write_json_data entry sanitize)) fs' →
      fs' target = fs target) ∧
    (∃ content, write_json_atomic fs tmp target entry sanitize target = some content ∧
      json_load content = some (.jobj (write_json_data entry sanitize))) ∧
    write_json_atomic fs tmp target entry sanitize tmp = none := by
  refine ⟨rfl, ?_, ?_, ?_⟩
  · rintro fs' (rfl | ⟨k, rfl⟩)
    · rfl
    · simp [setFile, Ne.symm htmp]
  · refine ⟨jsonDump (write_json_data entry sanitize), ?_, json_load_dump _⟩
    simp [write_json_atomic, atomic_write_json, renameFile, setFile]
  · simp [write_json_atomic, atomic_write_json, renameFile, setFile, htmp]

/-- Witness for `claim_C3`: a concrete distinct temporary/target pair and a
concrete entry; the interrupted states keep the target untouched and the
final content round-trips. -/
theorem claim_C3_witness :
    (("research_context.json.tmp" : String) ≠ "research_context.json") ∧
    (write_json_atomic (fun _ => none) "research_context.json.tmp" "research_context.json"
        [("topic", .jstr "ai")] true
      = renameFile (setFile (setFile (fun _ => none) "research_context.json.tmp" "")
          "research_context.json.tmp"
          (jsonDump (write_json_data [("topic", .jstr "ai")] true)))
          "research_context.json.tmp" "research_context.json" ∧
    (∀ fs', interruptedBeforeRename (fun _ => none) "research_context.json.tmp"
        (jsonDump (write_json_data [("topic", .jstr "ai")] true)) fs' →
      fs' "research_context.json" = (fun _ => none : FS) "research_context.json") ∧
    (∃ content, write_json_atomic (fun _ => none) "research_context.json.tmp"
        "research_context.json" [("topic", .jstr "ai")] true "research_context.json"
          = some content ∧
      json_load content = some (.jobj (write_json_data [("topic", .jstr "ai")] true))) ∧
    write_json_atomic (fun _ => none) "research_context.json.tmp" "research_context.json"
        [("topic", .jstr "ai")] true "research_context.json.tmp" = none) :=
  ⟨by decide,
    claim_C3 (fun _ => none) "research_context.json.tmp" "research_context.json"
      [("topic", .jstr "ai")] true (by decide)⟩

end DeepResearch
